import Mathlib

/-!
Verification of the plan-validation and query-compilation pipeline of the
CampusAssist KG-RAG repository.

The embedding models untrusted plan structures (Python dicts produced by
parsing planner JSON) as a JSON-like value type `J`.  Python dictionaries
become association lists (`Obj`), Python truthiness becomes `truthy`,
Python iteration becomes `pyIter`, and operations that can raise a Python
exception (`KeyError`, `TypeError`, `AttributeError`, `ValueError`) return
`Option`, with `none` marking an uncaught exception.

The functions `validate_and_fix_plan` and `cypher_from_plan` are translated
from `rag-duo/rag_neo4j/ask.py`; `classify_intent` and its helpers are
translated from `rag-duo/rag_neo4j/neo4j_qa.py`.
-/

/-- JSON-like values, the shapes `json.loads` can produce. -/
inductive J where
  | null : J
  | bool : Bool → J
  | int : Int → J
  | str : String → J
  | arr : List J → J
  | obj : List (String × J) → J

/-- A Python dict with string keys, as an association list (keys unique in practice). -/
abbrev Obj := List (String × J)

/-- Dictionary lookup, `d.get(k)` / `k in d`. -/
def dGet : Obj → String → Option J
  | [], _ => none
  | (k, v) :: rest, key => if k = key then some v else dGet rest key

/-- Dictionary assignment `d[k] = v`: update in place if present, else append. -/
def dSet : Obj → String → J → Obj
  | [], key, v => [(key, v)]
  | (k, w) :: rest, key, v =>
      if k = key then (k, v) :: rest else (k, w) :: dSet rest key v

/-- Python `k in d` for a dict. -/
def hasKey (o : Obj) (k : String) : Bool := (dGet o k).isSome

/-- Python truthiness of a JSON value. -/
def truthy : J → Bool
  | .null => false
  | .bool b => b
  | .int n => n != 0
  | .str s => s != ""
  | .arr xs => !xs.isEmpty
  | .obj kvs => !kvs.isEmpty

/-- Python iteration `for x in v`: lists yield elements, strings yield
1-character strings, dicts yield their keys; other values raise `TypeError`. -/
def pyIter : J → Option (List J)
  | .arr xs => some xs
  | .str s => some (s.data.map (fun c => .str (String.mk [c])))
  | .obj kvs => some (kvs.map (fun kv => .str kv.1))
  | _ => none

/-- Python subscripting `v[k]` with a string key: `KeyError` when the key is
missing, `TypeError` when `v` is not a dict. -/
def objIndex : J → String → Option J
  | .obj kvs, k => dGet kvs k
  | _, _ => none

/-- Python `v == s` for a string literal `s`: only a str compares equal. -/
def jIsStr : J → String → Bool
  | .str t, s => t == s
  | _, _ => false

/-- Python `d.get(k) == s` against a string literal. -/
def optIsStr : Option J → String → Bool
  | some (.str t), s => t == s
  | _, _ => false

/-- ASCII lower-casing of one character, the effect of Python `str.lower()`
on the ASCII questions and plan fields this pipeline handles. -/
def lowerChar (c : Char) : Char :=
  if 65 ≤ c.toNat ∧ c.toNat ≤ 90 then Char.ofNat (c.toNat + 32) else c

/-- ASCII upper-casing of one character (Python `str.upper()`). -/
def upperChar (c : Char) : Char :=
  if 97 ≤ c.toNat ∧ c.toNat ≤ 122 then Char.ofNat (c.toNat - 32) else c

/-- Python `s.lower()` (ASCII model). -/
def pyLower (s : String) : String := String.mk (s.data.map lowerChar)

/-- Python `s.upper()` (ASCII model). -/
def pyUpper (s : String) : String := String.mk (s.data.map upperChar)

/-- Python `sep.join(xs)`. -/
def pyJoin (sep : String) : List String → String
  | [] => ""
  | [x] => x
  | x :: y :: xs => x ++ sep ++ pyJoin sep (y :: xs)

/-- Test whether the first list is a prefix of the second. -/
def listStartsWith : List Char → List Char → Bool
  | [], _ => true
  | _ :: _, [] => false
  | a :: as, b :: bs => a == b && listStartsWith as bs

/-- Test whether the first list occurs as a contiguous sublist of the second. -/
def listInf (needle : List Char) : List Char → Bool
  | [] => needle.isEmpty
  | b :: bs => listStartsWith needle (b :: bs) || listInf needle bs

/-- Python substring test `needle in hay`. -/
def pyInStr (needle hay : String) : Bool := listInf needle.data hay.data

/-- Zero-padded decimal rendering of a natural number to width `w`. -/
def natPad (w : Nat) (n : Nat) : String :=
  let s := toString n
  String.mk (List.replicate (w - s.length) '0') ++ s

/-- Python format spec `f"{n:0wd}"` for an integer: zero-padded to total
width `w`, the sign column included for negatives. -/
def intPad (w : Nat) (n : Int) : String :=
  if n < 0 then "-" ++ natPad (w - 1) n.natAbs else natPad w n.toNat

/-- Modelled from the spec: the anchor-synonym map loaded from
`rag_neo4j/synonyms.json` (the file itself is not in the sources).  Spec §4.1
and §6 describe a mapping from lowercase free-text anchor phrase to canonical
Event name, and §4.2/§8 give the phrases `"classes start"`/`"classes begin"`
mapping to `"Classes Begin"` (with the `"Classes End"` family analogous,
matching the deterministic detector in `neo4j_qa.py`). -/
def synAnchors : List (String × String) :=
  [("classes begin", "Classes Begin"),
   ("classes start", "Classes Begin"),
   ("start of classes", "Classes Begin"),
   ("classes end", "Classes End"),
   ("class end", "Classes End"),
   ("end of classes", "Classes End")]

/-- Lookup in the anchor-synonym map (`SYN["anchors"].get(key)`). -/
def synLookup : List (String × String) → String → Option String
  | [], _ => none
  | (k, v) :: rest, key => if k = key then some v else synLookup rest key

/-- Modelled from the spec: `ALLOWED_FILTERS = set(SCHEMA["allow_filters"])`,
where `rag_neo4j/schema.json` is not in the sources.  Spec §6 fixes the
filter vocabulary to exactly these eight kinds. -/
def allowedFilterJ (t : J) : Bool :=
  jIsStr t "anchor_exact" || jIsStr t "after_anchor" || jIsStr t "before_anchor" ||
  jIsStr t "weekday_in" || jIsStr t "month_eq" || jIsStr t "date_window" ||
  jIsStr t "same_day_pairs" || jIsStr t "overlap_pairs"

/-- Modelled from the spec: `ALLOWED_GROUP = set(SCHEMA["allow_group_by"])`;
spec §3/§4.3 fix the group-by keys to `iso_year` and `iso_week`. -/
def allowedGroupJ (g : J) : Bool :=
  jIsStr g "iso_year" || jIsStr g "iso_week"

/-- Modelled from the spec: `ALLOWED_ORDER = set(SCHEMA["allow_order_by"])`;
spec §4.4 names `start_date`, `end_date`, `name` as the valid sort keys. -/
def allowedOrderJ (f : J) : Bool :=
  jIsStr f "start_date" || jIsStr f "end_date" || jIsStr f "name"

/-- Result of `validate_and_fix_plan`: either `(plan, None)` or `(None, msg)`. -/
inductive VResult where
  | ok : Obj → VResult
  | err : String → VResult

/-- Anchor normalization applied to a kept filter dict (ask.py lines
186-188): `if "anchor_event" in f and f["anchor_event"]: f["anchor_event"] =
SYN["anchors"].get(f["anchor_event"].lower(), f["anchor_event"])`.  `none`
models the `AttributeError` from `.lower()` on a truthy non-string. -/
def normAnchor (kvs : Obj) : Option Obj :=
  match dGet kvs "anchor_event" with
  | some a =>
    if truthy a then
      match a with
      | .str s => some (dSet kvs "anchor_event" (.str ((synLookup synAnchors (pyLower s)).getD s)))
      | _ => none
    else some kvs
  | none => some kvs

/-- Normalization of one filter dict inside the validator loop of
`validate_and_fix_plan` (ask.py lines 180-189).  Result `some none` means the
filter was dropped, `some (some f)` that (a possibly anchor-normalized) `f`
was kept, `none` that a Python exception was raised (`f.get` on a non-dict,
or `.lower()` on a non-string `anchor_event`). -/
def fixFilter (f : J) : Option (Option J) :=
  match f with
  | .obj kvs =>
    if allowedFilterJ ((dGet kvs "type").getD .null) then
      match normAnchor kvs with
      | some kvs1 => some (some (.obj kvs1))
      | none => none
    else some none
  | _ => none

/-- The validator's filter loop over the raw filter list. -/
def fixFilters : List J → Option (List J)
  | [] => some []
  | f :: fs => do
      match ← fixFilter f with
      | none => fixFilters fs
      | some f1 => do
          let rest ← fixFilters fs
          pure (f1 :: rest)

/-- Normalization of one order-by entry (ask.py lines 196-199): entries with
a disallowed `field` are dropped; `dir` defaults to `"asc"` and is
lower-cased; a non-dict entry or a truthy non-string `dir` raises. -/
def fixOrderItem (ob : J) : Option (Option J) :=
  match ob with
  | .obj kvs =>
    let fld := (dGet kvs "field").getD .null
    if allowedOrderJ fld then
      let dir := (dGet kvs "dir").getD .null
      if truthy dir then
        match dir with
        | .str s => some (some (.obj [("field", fld), ("dir", .str (pyLower s))]))
        | _ => none
      else some (some (.obj [("field", fld), ("dir", .str "asc")]))
    else some none
  | _ => none

/-- The validator's order-by loop. -/
def fixOrderItems : List J → Option (List J)
  | [] => some []
  | ob :: obs => do
      match ← fixOrderItem ob with
      | none => fixOrderItems obs
      | some ob1 => do
          let rest ← fixOrderItems obs
          pure (ob1 :: rest)

/-- Python `x or []` over a JSON value. -/
def orEmptyList (x : J) : J := if truthy x then x else .arr []

/-- Default select column list (`["name","start_date","end_date","source"]`). -/
def defaultSelect : J :=
  .arr [.str "name", .str "start_date", .str "end_date", .str "source"]

/-- The coerced clarification plan returned when `term` is missing. -/
def clarifyTerm : Obj :=
  [("intent", .str "ask_clarification"), ("missing", .arr [.str "term"])]

/-- Shape of the normalized Query plan assembled at ask.py lines 202-210. -/
def mkQuery (term : J) (filters : List J) (groupBy : List J) (select : J)
    (orderBy : List J) (limit : J) : Obj :=
  [("intent", .str "query"), ("term", term), ("filters", .arr filters),
   ("group_by", .arr groupBy), ("select", select), ("order_by", .arr orderBy),
   ("limit", limit)]

/-- Translation of `validate_and_fix_plan` (ask.py lines 165-211).  `none`
models an uncaught Python exception escaping the validator. -/
def validate_and_fix_plan (plan : Obj) : Option VResult :=
  if !hasKey plan "intent" then some (.err "Planner did not return an intent.")
  else if optIsStr (dGet plan "intent") "ask_clarification" then some (.ok plan)
  else
    let term := (dGet plan "term").getD .null
    if !truthy term then some (.ok clarifyTerm)
    else do
      let fs ← pyIter ((dGet plan "filters").getD (.arr []))
      let fixedF ← fixFilters fs
      let gs ← pyIter (orEmptyList ((dGet plan "group_by").getD .null))
      let groupBy := gs.filter allowedGroupJ
      let obs ← pyIter (orEmptyList ((dGet plan "order_by").getD .null))
      let fixedO ← fixOrderItems obs
      let selRaw := (dGet plan "select").getD .null
      let select := if truthy selRaw then selRaw else defaultSelect
      pure (.ok (mkQuery term fixedF groupBy select fixedO
        ((dGet plan "limit").getD .null)))

/-- The three anchor filter kinds (`f["type"] in ("after_anchor","before_anchor","anchor_exact")`). -/
def isAnchorTy (t : J) : Bool :=
  jIsStr t "after_anchor" || jIsStr t "before_anchor" || jIsStr t "anchor_exact"

/-- Short-circuiting `any(f["type"] in anchor_kinds for f in filters)`; raises
(`none`) at the first filter that is not a dict or lacks a `type` key. -/
def anyAnchorType : List J → Option Bool
  | [] => some false
  | f :: fs => do
      let t ← objIndex f "type"
      if isAnchorTy t then pure true else anyAnchorType fs

/-- Short-circuiting `any(f["type"] == s for f in filters)`. -/
def anyTypeEq (s : String) : List J → Option Bool
  | [] => some false
  | f :: fs => do
      let t ← objIndex f "type"
      if jIsStr t s then pure true else anyTypeEq s fs

/-- `next(f for f in filters if f["type"] in anchor_kinds)`. -/
def firstAnchor : List J → Option J
  | [] => none
  | f :: fs => do
      let t ← objIndex f "type"
      if isAnchorTy t then pure f else firstAnchor fs

/-- The directional WHERE pieces gathered from anchor filters, in list order
(ask.py lines 236-242). -/
def anchorClauses : List J → Option (List String)
  | [] => some []
  | f :: fs => do
      let t ← objIndex f "type"
      let rest ← anchorClauses fs
      if jIsStr t "after_anchor" then pure ("e.start_date > anchor_date" :: rest)
      else if jIsStr t "before_anchor" then pure ("e.start_date < anchor_date" :: rest)
      else if jIsStr t "anchor_exact" then pure ("e.name = $anchor" :: rest)
      else pure rest

/-- Python `f"{y:04d}-{m:02d}-01"`. -/
def dateFirst (y m : Int) : String := intPad 4 y ++ "-" ++ intPad 2 m ++ "-01"

/-- Python `f"{v:d}"` coercion: ints format directly, bools as 0/1, anything
else raises `ValueError`. -/
def pyFormatInt (v : J) : Option Int :=
  match v with
  | .int n => some n
  | .bool b => some (if b then 1 else 0)
  | _ => none

/-- The non-anchor filter loop of `cypher_from_plan` (ask.py lines 245-264),
threading the parameter dict and the WHERE clause list. -/
def scalarLoop : List J → Obj → List String → Option (Obj × List String)
  | [], params, cls => some (params, cls)
  | f :: fs, params, cls => do
      let t ← objIndex f "type"
      if jIsStr t "weekday_in" then do
        let w ← objIndex f "weekday"
        scalarLoop fs (dSet params "weekday" w)
          (cls ++ ["e.start_weekday = $weekday"])
      else if jIsStr t "month_eq" then do
        let yJ ← objIndex f "year"
        let mJ ← objIndex f "month"
        let y ← pyFormatInt yJ
        let m ← pyFormatInt mJ
        let params1 := dSet params "start" (.str (dateFirst y m))
        let params2 :=
          if m = 12 then dSet params1 "end" (.str (intPad 4 (y + 1) ++ "-01-01"))
          else dSet params1 "end" (.str (dateFirst y (m + 1)))
        scalarLoop fs params2
          (cls ++ ["e.start_date >= date($start) AND e.start_date < date($end)"])
      else if jIsStr t "date_window" then do
        let ws ← objIndex f "start"
        let we ← objIndex f "end"
        scalarLoop fs (dSet (dSet params "win_start" ws) "win_end" we)
          (cls ++ ["e.start_date >= date($win_start) AND e.start_date <= date($win_end)"])
      else scalarLoop fs params cls

/-- Base MATCH prelude of the compiled query. -/
def basePrelude : String := "MATCH (:Term \x7bname:$term\x7d)-[:HAS_EVENT]->(e:Event)\n"

/-- Two-stage anchor prelude (ask.py lines 230-234). -/
def anchorPrelude : String :=
  "MATCH (:Term \x7bname:$term\x7d)-[:HAS_EVENT]->(a:Event \x7bname:$anchor\x7d)\n" ++
  "WITH a.start_date AS anchor_date\n" ++
  "MATCH (:Term \x7bname:$term\x7d)-[:HAS_EVENT]->(e:Event)\n"

/-- The fixed pairwise same-day query (ask.py lines 270-276). -/
def sameDayQ : String :=
  "MATCH (:Term \x7bname:$term\x7d)-[:HAS_EVENT]->(a:Event),\n" ++
  "      (:Term \x7bname:$term\x7d)-[:HAS_EVENT]->(b:Event)\n" ++
  "WHERE a.start_date = b.start_date AND id(a) < id(b)\n" ++
  "RETURN a.name AS event1, toString(a.start_date) AS date, b.name AS event2\n" ++
  "ORDER BY date\n"

/-- The fixed pairwise overlap query (ask.py lines 280-287). -/
def overlapQ : String :=
  "MATCH (:Term \x7bname:$term\x7d)-[:HAS_EVENT]->(a:Event),\n" ++
  "      (:Term \x7bname:$term\x7d)-[:HAS_EVENT]->(b:Event)\n" ++
  "WHERE a.start_date <= b.end_date AND b.start_date <= a.end_date AND id(a) < id(b)\n" ++
  "RETURN a.name AS event1, toString(a.start_date) AS a_start, toString(a.end_date) AS a_end,\n" ++
  "       b.name AS event2, toString(b.start_date) AS b_start, toString(b.end_date) AS b_end\n" ++
  "ORDER BY a_start, b_start\n"

/-- Prelude, parameter dict and WHERE clause list built from the filter list
(ask.py lines 217-264), before the pairwise short-circuit check. -/
def stagePre (term : J) (fs : List J) : Option (String × Obj × List String) := do
  let anchorNeeded ← anyAnchorType fs
  if anchorNeeded then do
    let f0 ← firstAnchor fs
    let anchor ← objIndex f0 "anchor_event"
    let cls ← anchorClauses fs
    let pc ← scalarLoop fs (dSet [("term", term)] "anchor" anchor) cls
    pure (anchorPrelude, pc.1, pc.2)
  else do
    let pc ← scalarLoop fs [("term", term)] []
    pure (basePrelude, pc.1, pc.2)

/-- One step of the select-column projection loop (ask.py lines 293-299). -/
def selStep (acc : List String) (c : J) : List String :=
  if jIsStr c "name" then acc ++ ["e.name AS name"]
  else if jIsStr c "start_date" then acc ++ ["toString(e.start_date) AS start_date"]
  else if jIsStr c "end_date" then acc ++ ["toString(e.end_date) AS end_date"]
  else if jIsStr c "source" then acc ++ ["e.source AS source"]
  else acc

/-- Python `x in container` for a string literal against a JSON container. -/
def pyContains (needle : String) : J → Option Bool
  | .arr xs => some (xs.any (fun x => jIsStr x needle))
  | .str s => some (pyInStr needle s)
  | .obj kvs => some (kvs.any (fun kv => kv.1 == needle))
  | _ => none

/-- Default order-by list (`[{"field":"start_date","dir":"asc"}]`). -/
def defaultOrder : J := .arr [.obj [("field", .str "start_date"), ("dir", .str "asc")]]

/-- The ORDER BY loop of `cypher_from_plan` (ask.py lines 313-318). -/
def orderLoop : List J → Option (List String)
  | [] => some []
  | item :: rest =>
    match item with
    | .obj kvs => do
        let fld ← dGet kvs "field"
        let dirJ := (dGet kvs "dir").getD (.str "asc")
        let dstr ← match dirJ with | .str s => some s | _ => none
        let direc := pyUpper dstr
        let tail ← orderLoop rest
        if jIsStr fld "start_date" then pure (("e.start_date " ++ direc) :: tail)
        else if jIsStr fld "end_date" then pure (("e.end_date " ++ direc) :: tail)
        else if jIsStr fld "name" then pure (("e.name " ++ direc) :: tail)
        else pure tail
    | _ => none

/-- RETURN projection, grouping pseudo-columns and ORDER BY construction
(ask.py lines 291-322), producing the final standard-shape query. -/
def stagePost (prelude whereStr : String)
    (selO gbO obO : Option J) (params : Obj) : Option (String × Obj) := do
  let selJ := selO.getD .null
  let selectCols := if truthy selJ then selJ else defaultSelect
  let cs ← pyIter selectCols
  let rc0 := cs.foldl selStep []
  let gbJ := gbO.getD .null
  let gb := if truthy gbJ then gbJ else .arr []
  let hw ← pyContains "iso_week" gb
  let rc1 := if hw then rc0 ++ ["e.start_date.week AS iso_week"] else rc0
  let hy ← pyContains "iso_year" gb
  let rc2 := if hy then rc1 ++ ["e.start_date.year AS iso_year"] else rc1
  let ret := "RETURN " ++ pyJoin ", " rc2 ++ "\n"
  let obJ := obO.getD .null
  let obList := if truthy obJ then obJ else defaultOrder
  let items ← pyIter obList
  let obStrs ← orderLoop items
  let order := if obStrs.isEmpty then "" else "ORDER BY " ++ pyJoin ", " obStrs ++ "\n"
  pure (prelude ++ whereStr ++ ret ++ order, params)

/-- Core of `cypher_from_plan` as a function of the only plan fields the
source reads: `term`, `filters`, `select`, `group_by`, `order_by`. -/
def cypherCore (termO fO selO gbO obO : Option J) : Option (String × Obj) := do
  let term ← termO
  let fJ ← fO
  let fs ← pyIter fJ
  let pre ← stagePre term fs
  let whereStr := if pre.2.2.isEmpty then "" else "WHERE " ++ pyJoin " AND " pre.2.2 ++ "\n"
  let sd ← anyTypeEq "same_day_pairs" fs
  if sd then pure (sameDayQ, [("term", term)])
  else do
    let ov ← anyTypeEq "overlap_pairs" fs
    if ov then pure (overlapQ, [("term", term)])
    else stagePost pre.1 whereStr selO gbO obO pre.2.1

/-- Translation of `cypher_from_plan` (ask.py lines 214-322).  `none` models
an uncaught Python exception (e.g. `KeyError` on a filter that lacks the
payload field its kind requires). -/
def cypher_from_plan (plan : Obj) : Option (String × Obj) :=
  cypherCore (dGet plan "term") (dGet plan "filters") (dGet plan "select")
    (dGet plan "group_by") (dGet plan "order_by")

/-- Weekday names in fixed list order (neo4j_qa.py line 28). -/
def WEEKDAYS : List String :=
  ["Monday", "Tuesday", "Wednesday", "Thursday", "Friday", "Saturday", "Sunday"]

/-- Month-name table in insertion order (neo4j_qa.py lines 29-33). -/
def MONTHS : List (String × Nat) :=
  [("january", 1), ("february", 2), ("march", 3), ("april", 4),
   ("may", 5), ("june", 6), ("july", 7), ("august", 8),
   ("september", 9), ("october", 10), ("november", 11), ("december", 12)]

/-- Translation of `extract_weekday` (neo4j_qa.py lines 86-91). -/
def extract_weekday (question : String) : Option String :=
  let ql := pyLower question
  WEEKDAYS.find? (fun wd => pyInStr (pyLower wd) ql || pyInStr (pyLower wd ++ "s") ql)

/-- Python `\w` (ASCII model), for the word boundaries of `\b(20\d{2})\b`. -/
def isWordChar (c : Char) : Bool :=
  (65 ≤ c.toNat && c.toNat ≤ 90) || (97 ≤ c.toNat && c.toNat ≤ 122) ||
  (48 ≤ c.toNat && c.toNat ≤ 57) || c == '_'

/-- Decimal digit test. -/
def isDigitCh (c : Char) : Bool := 48 ≤ c.toNat && c.toNat ≤ 57

/-- Leftmost match of the year pattern `\b(20\d{2})\b`, scanning with the
previous character for the left word boundary (models `re.search`). -/
def scanYear (prev : Option Char) : List Char → Option Nat
  | [] => none
  | c :: rest =>
    match rest with
    | d0 :: d1 :: d2 :: rest2 =>
        if c == '2' && d0 == '0' && isDigitCh d1 && isDigitCh d2 &&
           !(prev.elim false isWordChar) &&
           !(match rest2 with | [] => false | c2 :: _ => isWordChar c2)
        then some (2000 + (d1.toNat - 48) * 10 + (d2.toNat - 48))
        else scanYear (some c) rest
    | _ => scanYear (some c) rest

/-- Translation of `extract_month` (neo4j_qa.py lines 94-112): first month
name found in the lowered question, with the year from the first
`\b(20\d{2})\b` token; `none` when either is missing. -/
def extract_month (question : String) : Option (Nat × Nat) :=
  let ql := pyLower question
  match MONTHS.find? (fun nm => pyInStr nm.1 ql) with
  | none => none
  | some nm =>
    match scanYear none ql.data with
    | none => none
    | some year => some (year, nm.2)

/-- Translation of `detect_anchor` (neo4j_qa.py lines 115-124). -/
def detect_anchor (question : String) : Option String :=
  let ql := pyLower question
  if pyInStr "classes end" ql || pyInStr "class end" ql || pyInStr "end of classes" ql then
    some "Classes End"
  else if pyInStr "classes begin" ql || pyInStr "classes start" ql || pyInStr "start of classes" ql then
    some "Classes Begin"
  else none

/-- Translation of `classify_intent` (neo4j_qa.py lines 127-157). -/
def classify_intent (question : String) : String :=
  let ql := pyLower question
  if pyInStr "overlap" ql || pyInStr "overlapping" ql then "overlaps"
  else if pyInStr "same day" ql || pyInStr "same-day" ql then "same_day"
  else if pyInStr "after" ql && (detect_anchor question).isSome then "after_anchor"
  else if pyInStr "before" ql && (detect_anchor question).isSome then "before_anchor"
  else if pyInStr "start" ql && pyInStr "class" ql then "classes_start"
  else if (extract_weekday question).isSome then "weekday"
  else if (extract_month question).isSome then "month"
  else "all_events"

/-- Specification-side description of the classifier: the ordered check
list of §4.2, each entry an intent name with its independent predicate. -/
def intentChecks : List (String × (String → Bool)) :=
  [("overlaps", fun q => pyInStr "overlap" (pyLower q) || pyInStr "overlapping" (pyLower q)),
   ("same_day", fun q => pyInStr "same day" (pyLower q) || pyInStr "same-day" (pyLower q)),
   ("after_anchor", fun q => pyInStr "after" (pyLower q) && (detect_anchor q).isSome),
   ("before_anchor", fun q => pyInStr "before" (pyLower q) && (detect_anchor q).isSome),
   ("classes_start", fun q => pyInStr "start" (pyLower q) && pyInStr "class" (pyLower q)),
   ("weekday", fun q => (extract_weekday q).isSome),
   ("month", fun q => (extract_month q).isSome)]

/-- First matching intent in the fixed precedence order, defaulting to
`all_events`: the normative reading of spec §4.2. -/
def firstIntent (q : String) : String :=
  ((intentChecks.find? (fun ch => ch.2 q)).map Prod.fst).getD "all_events"

theorem dGet_dSet_self (o : Obj) (k : String) (v : J) :
    dGet (dSet o k v) k = some v := by
  induction o with
  | nil => simp [dSet, dGet]
  | cons kv rest ih =>
    by_cases h : kv.1 = k
    · simp [dSet, dGet, h]
    · simp [dSet, dGet, h, ih]

theorem dGet_dSet_ne (o : Obj) (k : String) (v : J) (k' : String) (h : k ≠ k') :
    dGet (dSet o k v) k' = dGet o k' := by
  induction o with
  | nil => simp [dSet, dGet, h]
  | cons kv rest ih =>
    by_cases h1 : kv.1 = k
    · simp [dSet, dGet, h1, h]
    · simp [dSet, dGet, h1, ih]

theorem dSet_dSet_same (o : Obj) (k : String) (v : J) :
    dSet (dSet o k v) k v = dSet o k v := by
  induction o with
  | nil => simp [dSet]
  | cons kv rest ih =>
    by_cases h1 : kv.1 = k
    · simp [dSet, h1]
    · simp [dSet, h1, ih]

theorem toNat_ofNat_valid (n : Nat) (h : n.isValidChar) : (Char.ofNat n).toNat = n := by
  simp only [Char.ofNat, dif_pos h, Char.ofNatAux, Char.toNat, UInt32.toNat, BitVec.toNat_ofNatLt]

theorem lowerChar_idem (c : Char) : lowerChar (lowerChar c) = lowerChar c := by
  unfold lowerChar
  by_cases h : 65 ≤ c.toNat ∧ c.toNat ≤ 90
  · rw [if_pos h]
    have hv : (c.toNat + 32).isValidChar := Or.inl (by omega)
    have ht : (Char.ofNat (c.toNat + 32)).toNat = c.toNat + 32 := toNat_ofNat_valid _ hv
    rw [if_neg]
    omega
  · rw [if_neg h, if_neg h]

theorem pyLower_idem (s : String) : pyLower (pyLower s) = pyLower s := by
  unfold pyLower
  congr 1
  simp only [List.map_map]
  exact List.map_congr_left (fun c _ => by simpa using lowerChar_idem c)

theorem mk_data (s : String) : String.mk s.data = s := by
  cases s
  rfl

theorem pyLower_empty_iff (s : String) : pyLower s = "" ↔ s = "" := by
  constructor
  · intro h
    have hd : (pyLower s).data = ("" : String).data := by rw [h]
    simp only [pyLower] at hd
    have hnil : s.data = [] := by
      cases hs : s.data with
      | nil => rfl
      | cons a l => rw [hs] at hd; simp [List.map] at hd
    cases s
    simp_all
  · intro h
    subst h
    rfl

theorem pyJoin_append_ex (sep : String) (l1 l2 : List String) (h : l1 ≠ []) :
    ∃ r, pyJoin sep (l1 ++ l2) = pyJoin sep l1 ++ r := by
  induction l1 with
  | nil => exact absurd rfl h
  | cons x xs ih =>
    cases xs with
    | nil =>
      cases l2 with
      | nil => exact ⟨"", by simp [pyJoin, String.append_empty]⟩
      | cons y ys => exact ⟨sep ++ pyJoin sep (y :: ys), by simp [pyJoin, String.append_assoc]⟩
    | cons y ys =>
      obtain ⟨r, hr⟩ := ih (by simp)
      refine ⟨r, ?_⟩
      show x ++ sep ++ pyJoin sep (y :: (ys ++ l2)) = pyJoin sep (x :: y :: ys) ++ r
      have hr1 : pyJoin sep (y :: (ys ++ l2)) = pyJoin sep (y :: ys) ++ r := hr
      rw [hr1]
      rw [← String.append_assoc]
      rfl

/-- A filter value carrying an allow-listed `type` (the shape every filter in
a normalized Query plan has). -/
def filterAllowedB (f : J) : Bool :=
  match f with
  | .obj kvs => allowedFilterJ ((dGet kvs "type").getD .null)
  | _ => false

theorem synLookup_mem (l : List (String × String)) (k v : String)
    (h : synLookup l k = some v) : v ∈ l.map Prod.snd := by
  induction l with
  | nil => simp [synLookup] at h
  | cons kv rest ih =>
    obtain ⟨k1, v1⟩ := kv
    by_cases h1 : k1 = k
    · simp only [synLookup, if_pos h1, Option.some.injEq] at h
      simp [h]
    · simp only [synLookup, if_neg h1] at h
      simp [ih h]

theorem synAnchors_val_fixed (v : String) (hv : v ∈ synAnchors.map Prod.snd) :
    synLookup synAnchors (pyLower v) = some v := by
  simp only [synAnchors, List.map_cons, List.map_nil, List.mem_cons,
    List.not_mem_nil, or_false] at hv
  rcases hv with h | h | h | h | h | h <;> subst h <;> rfl

theorem synAnchors_val_ne_empty (v : String) (hv : v ∈ synAnchors.map Prod.snd) :
    v ≠ "" := by
  simp only [synAnchors, List.map_cons, List.map_nil, List.mem_cons,
    List.not_mem_nil, or_false] at hv
  rcases hv with h | h | h | h | h | h <;> subst h <;> decide

theorem normAnchor_stable (kvs kvs1 : Obj) (h : normAnchor kvs = some kvs1) :
    normAnchor kvs1 = some kvs1 ∧ dGet kvs1 "type" = dGet kvs "type" := by
  cases hae : dGet kvs "anchor_event" with
  | none =>
    simp only [normAnchor, hae, Option.some.injEq] at h
    subst h
    constructor
    · simp only [normAnchor, hae]
    · rfl
  | some a =>
    simp only [normAnchor, hae] at h
    by_cases ht : truthy a
    · rw [if_pos ht] at h
      cases a with
      | str s =>
        simp only [Option.some.injEq] at h
        subst h
        have hty : dGet (dSet kvs "anchor_event"
            (.str ((synLookup synAnchors (pyLower s)).getD s))) "type" = dGet kvs "type" :=
          dGet_dSet_ne kvs "anchor_event" _ "type" (by decide)
        refine ⟨?_, hty⟩
        have hget : dGet (dSet kvs "anchor_event"
            (.str ((synLookup synAnchors (pyLower s)).getD s))) "anchor_event" =
            some (.str ((synLookup synAnchors (pyLower s)).getD s)) :=
          dGet_dSet_self kvs "anchor_event" _
        simp only [normAnchor, hget]
        cases hl : synLookup synAnchors (pyLower s) with
        | some c =>
          have hc : c ≠ "" :=
            synAnchors_val_ne_empty c (synLookup_mem _ _ _ hl)
          have hcfix : synLookup synAnchors (pyLower c) = some c :=
            synAnchors_val_fixed c (synLookup_mem _ _ _ hl)
          simp only [Option.getD_some]
          rw [if_pos (by simp [truthy, hc])]
          rw [hcfix]
          simp only [Option.getD_some, Option.some.injEq]
          rw [dSet_dSet_same]
        | none =>
          have hs : s ≠ "" := by
            simpa [truthy] using ht
          simp only [Option.getD_none]
          rw [if_pos (by simp [truthy, hs])]
          rw [hl]
          simp only [Option.getD_none, Option.some.injEq]
          rw [dSet_dSet_same]
      | null => simp [truthy] at ht
      | bool b => simp at h
      | int n => simp at h
      | arr xs => simp at h
      | obj o => simp at h
    · rw [if_neg ht] at h
      simp only [Option.some.injEq] at h
      subst h
      constructor
      · simp only [normAnchor, hae]
        rw [if_neg ht]
      · rfl

theorem fixFilter_stable (f f1 : J) (h : fixFilter f = some (some f1)) :
    fixFilter f1 = some (some f1) ∧ filterAllowedB f1 = true := by
  cases f with
  | obj kvs =>
    simp only [fixFilter] at h
    by_cases ha : allowedFilterJ ((dGet kvs "type").getD .null)
    · rw [if_pos ha] at h
      cases hn : normAnchor kvs with
      | none => rw [hn] at h; simp at h
      | some kvs1 =>
        rw [hn] at h
        simp only [Option.some.injEq] at h
        subst h
        obtain ⟨hstab, hty⟩ := normAnchor_stable kvs kvs1 hn
        have ha1 : allowedFilterJ ((dGet kvs1 "type").getD .null) = true := by
          rw [hty]; exact ha
        constructor
        · simp only [fixFilter]
          rw [if_pos ha1, hstab]
        · simp [filterAllowedB, ha1]
    · rw [if_neg ha] at h
      simp at h
  | null => simp [fixFilter] at h
  | bool b => simp [fixFilter] at h
  | int n => simp [fixFilter] at h
  | str s => simp [fixFilter] at h
  | arr xs => simp [fixFilter] at h

theorem fixFilters_stable (l : List J) (h : ∀ f ∈ l, fixFilter f = some (some f)) :
    fixFilters l = some l := by
  induction l with
  | nil => rfl
  | cons f fs ih =>
    have hf := h f (by simp)
    rw [fixFilters, hf]
    simp only [Option.bind_eq_bind, Option.some_bind]
    rw [ih (fun g hg => h g (by simp [hg]))]
    rfl

theorem fixFilters_forall (fs l : List J) (h : fixFilters fs = some l) :
    ∀ f1 ∈ l, fixFilter f1 = some (some f1) ∧ filterAllowedB f1 = true := by
  induction fs generalizing l with
  | nil =>
    simp only [fixFilters, Option.some.injEq] at h
    subst h
    intro f1 hf1
    simp at hf1
  | cons f rest ih =>
    rw [fixFilters] at h
    cases hf : fixFilter f with
    | none => rw [hf] at h; simp at h
    | some o =>
      rw [hf] at h
      cases o with
      | none =>
        simp only [Option.bind_eq_bind, Option.some_bind] at h
        exact ih l h
      | some f1 =>
        simp only [Option.bind_eq_bind, Option.some_bind] at h
        cases hrest : fixFilters rest with
        | none => rw [hrest] at h; simp at h
        | some l2 =>
          rw [hrest] at h
          simp only [Option.bind_eq_bind, Option.some_bind, Option.pure_def,
            Option.some.injEq] at h
          subst h
          intro g hg
          rcases List.mem_cons.mp hg with hg1 | hg2
          · subst hg1
            exact fixFilter_stable f g hf
          · exact ih l2 hrest g hg2

theorem pyLower_asc : pyLower "asc" = "asc" := rfl

theorem dGet_pair_fst (k1 : String) (v1 : J) (k2 : String) (v2 : J) :
    dGet [(k1, v1), (k2, v2)] k1 = some v1 := by
  simp [dGet]

theorem dGet_pair_snd (v1 v2 : J) :
    dGet [("field", v1), ("dir", v2)] "dir" = some v2 := by
  simp [dGet]

theorem fixOrderItem_pair (fld : J) (d : String)
    (hf : allowedOrderJ fld = true) (hd : d ≠ "") :
    fixOrderItem (.obj [("field", fld), ("dir", .str d)]) =
      some (some (.obj [("field", fld), ("dir", .str (pyLower d))])) := by
  simp only [fixOrderItem, dGet_pair_fst, dGet_pair_snd, Option.getD_some]
  rw [if_pos hf, if_pos (by simp [truthy, hd])]

theorem fixOrderItem_stable (ob ob1 : J) (h : fixOrderItem ob = some (some ob1)) :
    fixOrderItem ob1 = some (some ob1) ∧
    ∃ fld d, ob1 = .obj [("field", fld), ("dir", .str d)] ∧
      allowedOrderJ fld = true ∧ d ≠ "" := by
  cases ob with
  | obj kvs =>
    simp only [fixOrderItem] at h
    by_cases hf : allowedOrderJ ((dGet kvs "field").getD .null)
    · rw [if_pos hf] at h
      by_cases ht : truthy ((dGet kvs "dir").getD .null)
      · rw [if_pos ht] at h
        cases hd : (dGet kvs "dir").getD .null with
        | str s =>
          rw [hd] at h
          simp only [Option.some.injEq] at h
          subst h
          have hs : s ≠ "" := by
            rw [hd] at ht
            simpa [truthy] using ht
          have hlow : pyLower s ≠ "" := fun hc => hs ((pyLower_empty_iff s).mp hc)
          constructor
          · rw [fixOrderItem_pair _ _ hf hlow, pyLower_idem]
          · exact ⟨_, _, rfl, hf, hlow⟩
        | null => rw [hd] at h; simp at h
        | bool b => rw [hd] at h; simp at h
        | int n => rw [hd] at h; simp at h
        | arr xs => rw [hd] at h; simp at h
        | obj o => rw [hd] at h; simp at h
      · rw [if_neg ht] at h
        simp only [Option.some.injEq] at h
        subst h
        constructor
        · rw [fixOrderItem_pair _ _ hf (by decide), pyLower_asc]
        · exact ⟨_, _, rfl, hf, by decide⟩
    · rw [if_neg hf] at h
      simp at h
  | null => simp [fixOrderItem] at h
  | bool b => simp [fixOrderItem] at h
  | int n => simp [fixOrderItem] at h
  | str s => simp [fixOrderItem] at h
  | arr xs => simp [fixOrderItem] at h

theorem fixOrderItems_stable (l : List J) (h : ∀ ob ∈ l, fixOrderItem ob = some (some ob)) :
    fixOrderItems l = some l := by
  induction l with
  | nil => rfl
  | cons ob obs ih =>
    have hf := h ob (by simp)
    rw [fixOrderItems, hf]
    simp only [Option.bind_eq_bind, Option.some_bind]
    rw [ih (fun g hg => h g (by simp [hg]))]
    rfl

theorem fixOrderItems_forall (obs l : List J) (h : fixOrderItems obs = some l) :
    ∀ ob ∈ l, fixOrderItem ob = some (some ob) ∧
      ∃ fld d, ob = .obj [("field", fld), ("dir", .str d)] ∧
        allowedOrderJ fld = true ∧ d ≠ "" := by
  induction obs generalizing l with
  | nil =>
    simp only [fixOrderItems, Option.some.injEq] at h
    subst h
    intro ob hob
    simp at hob
  | cons ob rest ih =>
    rw [fixOrderItems] at h
    cases hf : fixOrderItem ob with
    | none => rw [hf] at h; simp at h
    | some o =>
      rw [hf] at h
      cases o with
      | none =>
        simp only [Option.bind_eq_bind, Option.some_bind] at h
        exact ih l h
      | some ob1 =>
        simp only [Option.bind_eq_bind, Option.some_bind] at h
        cases hrest : fixOrderItems rest with
        | none => rw [hrest] at h; simp at h
        | some l2 =>
          rw [hrest] at h
          simp only [Option.bind_eq_bind, Option.some_bind, Option.pure_def,
            Option.some.injEq] at h
          subst h
          intro g hg
          rcases List.mem_cons.mp hg with hg1 | hg2
          · subst hg1
            exact fixOrderItem_stable ob g hf
          · exact ih l2 hrest g hg2

theorem optIsStr_true (o : Option J) (s : String) (h : optIsStr o s = true) :
    o = some (.str s) := by
  cases o with
  | none => simp [optIsStr] at h
  | some v =>
    cases v with
    | str t =>
      simp only [optIsStr, beq_iff_eq] at h
      rw [h]
    | null => simp [optIsStr] at h
    | bool b => simp [optIsStr] at h
    | int n => simp [optIsStr] at h
    | arr xs => simp [optIsStr] at h
    | obj kvs => simp [optIsStr] at h

theorem dGet_mkQuery_intent (t : J) (fF gb : List J) (sel : J) (fO : List J) (lim : J) :
    dGet (mkQuery t fF gb sel fO lim) "intent" = some (.str "query") := by
  simp [mkQuery, dGet]

theorem dGet_mkQuery_term (t : J) (fF gb : List J) (sel : J) (fO : List J) (lim : J) :
    dGet (mkQuery t fF gb sel fO lim) "term" = some t := by
  simp [mkQuery, dGet]

theorem dGet_mkQuery_filters (t : J) (fF gb : List J) (sel : J) (fO : List J) (lim : J) :
    dGet (mkQuery t fF gb sel fO lim) "filters" = some (.arr fF) := by
  simp [mkQuery, dGet]

theorem dGet_mkQuery_group (t : J) (fF gb : List J) (sel : J) (fO : List J) (lim : J) :
    dGet (mkQuery t fF gb sel fO lim) "group_by" = some (.arr gb) := by
  simp [mkQuery, dGet]

theorem dGet_mkQuery_select (t : J) (fF gb : List J) (sel : J) (fO : List J) (lim : J) :
    dGet (mkQuery t fF gb sel fO lim) "select" = some sel := by
  simp [mkQuery, dGet]

theorem dGet_mkQuery_order (t : J) (fF gb : List J) (sel : J) (fO : List J) (lim : J) :
    dGet (mkQuery t fF gb sel fO lim) "order_by" = some (.arr fO) := by
  simp [mkQuery, dGet]

theorem dGet_mkQuery_limit (t : J) (fF gb : List J) (sel : J) (fO : List J) (lim : J) :
    dGet (mkQuery t fF gb sel fO lim) "limit" = some lim := by
  simp [mkQuery, dGet]

theorem orEmptyList_arr (l : List J) : orEmptyList (.arr l) = .arr l := by
  cases l <;> simp [orEmptyList, truthy]

theorem validate_ok_query_inv (p p' : Obj)
    (h : validate_and_fix_plan p = some (.ok p'))
    (hq : dGet p' "intent" = some (.str "query")) :
    ∃ term fF gb sel fO lim,
      p' = mkQuery term fF gb sel fO lim ∧
      truthy term = true ∧
      (∀ f1 ∈ fF, fixFilter f1 = some (some f1)) ∧
      (∀ f1 ∈ fF, filterAllowedB f1 = true) ∧
      (∀ g ∈ gb, allowedGroupJ g = true) ∧
      truthy sel = true ∧
      (∀ ob ∈ fO, fixOrderItem ob = some (some ob)) ∧
      (∀ ob ∈ fO, ∃ fld d, ob = .obj [("field", fld), ("dir", .str d)] ∧
          allowedOrderJ fld = true ∧ d ≠ "") := by
  simp only [validate_and_fix_plan] at h
  by_cases h1 : hasKey p "intent"
  · rw [if_neg (by simp [h1])] at h
    by_cases h2 : optIsStr (dGet p "intent") "ask_clarification"
    · rw [if_pos h2] at h
      simp only [Option.some.injEq, VResult.ok.injEq] at h
      subst h
      rw [optIsStr_true _ _ h2] at hq
      simp at hq
    · rw [if_neg h2] at h
      by_cases h3 : truthy ((dGet p "term").getD .null)
      · rw [if_neg (by simp [h3])] at h
        simp only [Option.bind_eq_bind, Option.bind_eq_some] at h
        obtain ⟨fs, hfs, h⟩ := h
        obtain ⟨fF, hfF, h⟩ := h
        obtain ⟨gs, hgs, h⟩ := h
        obtain ⟨obs, hobs, h⟩ := h
        obtain ⟨fO, hfO, h⟩ := h
        simp only [Option.pure_def, Option.some.injEq, VResult.ok.injEq] at h
        refine ⟨(dGet p "term").getD .null, fF, gs.filter allowedGroupJ,
          (if truthy ((dGet p "select").getD .null) then (dGet p "select").getD .null
            else defaultSelect), fO, (dGet p "limit").getD .null, h.symm, h3,
          (fun f1 hf1 => (fixFilters_forall fs fF hfF f1 hf1).1),
          (fun f1 hf1 => (fixFilters_forall fs fF hfF f1 hf1).2),
          (fun g hg => (List.mem_filter.mp hg).2), ?_,
          (fun ob hob => (fixOrderItems_forall obs fO hfO ob hob).1),
          (fun ob hob => (fixOrderItems_forall obs fO hfO ob hob).2)⟩
        by_cases h4 : truthy ((dGet p "select").getD .null)
        · rw [if_pos h4]; exact h4
        · rw [if_neg h4]; decide
      · rw [if_pos (by simp [h3])] at h
        simp only [Option.some.injEq, VResult.ok.injEq] at h
        subst h
        simp [clarifyTerm, dGet] at hq
  · rw [if_pos (by simp [h1])] at h
    simp at h

theorem validate_mkQuery_idem (term : J) (fF gb : List J) (sel : J) (fO : List J) (lim : J)
    (hterm : truthy term = true)
    (hfF : ∀ f1 ∈ fF, fixFilter f1 = some (some f1))
    (hgb : ∀ g ∈ gb, allowedGroupJ g = true)
    (hsel : truthy sel = true)
    (hfO : ∀ ob ∈ fO, fixOrderItem ob = some (some ob)) :
    validate_and_fix_plan (mkQuery term fF gb sel fO lim) =
      some (.ok (mkQuery term fF gb sel fO lim)) := by
  have hk : hasKey (mkQuery term fF gb sel fO lim) "intent" = true := by
    simp [hasKey, dGet_mkQuery_intent]
  simp only [validate_and_fix_plan, hk, dGet_mkQuery_intent, dGet_mkQuery_term,
    dGet_mkQuery_filters, dGet_mkQuery_group, dGet_mkQuery_select,
    dGet_mkQuery_order, dGet_mkQuery_limit, Option.getD_some, Bool.not_true,
    Bool.false_eq_true, if_false]
  rw [if_neg (by decide)]
  rw [if_neg (by simp [hterm])]
  rw [orEmptyList_arr, orEmptyList_arr]
  simp only [pyIter, Option.bind_eq_bind, Option.some_bind]
  rw [fixFilters_stable fF hfF]
  simp only [Option.some_bind]
  rw [List.filter_eq_self.mpr hgb]
  rw [fixOrderItems_stable fO hfO]
  simp only [Option.some_bind]
  rw [if_pos hsel]
  rfl

/-- C1: for every raw plan whose validation produces a normalized Query plan,
every filter whose type is not in the allow-list is absent from that plan
(all retained filters carry an allow-listed type), and validation is
idempotent: re-validating the normalized Query plan yields the same plan. -/
theorem C1_disallowed_filters_absent_and_idempotent (p p' : Obj)
    (h : validate_and_fix_plan p = some (.ok p'))
    (hq : dGet p' "intent" = some (.str "query")) :
    (∃ fs, dGet p' "filters" = some (.arr fs) ∧ ∀ f ∈ fs, filterAllowedB f = true) ∧
    validate_and_fix_plan p' = some (.ok p') := by
  obtain ⟨term, fF, gb, sel, fO, lim, hp', hterm, hstab, hallow, hgb, hsel, hostab, _⟩ :=
    validate_ok_query_inv p p' h hq
  subst hp'
  exact ⟨⟨fF, dGet_mkQuery_filters term fF gb sel fO lim, hallow⟩,
    validate_mkQuery_idem term fF gb sel fO lim hterm hstab hgb hsel hostab⟩

theorem C1_disallowed_filters_absent_and_idempotent_witness :
    (validate_and_fix_plan
        [("intent", .str "query"), ("term", .str "Fall 2025"),
         ("filters", .arr [.obj [("type", .str "bogus")],
                           .obj [("type", .str "weekday_in"), ("weekday", .str "Monday")]])] =
      some (.ok (mkQuery (.str "Fall 2025")
        [.obj [("type", .str "weekday_in"), ("weekday", .str "Monday")]]
        [] defaultSelect [] .null))) ∧
    ((∃ fs, dGet (mkQuery (.str "Fall 2025")
        [.obj [("type", .str "weekday_in"), ("weekday", .str "Monday")]]
        [] defaultSelect [] .null) "filters" = some (.arr fs) ∧
        ∀ f ∈ fs, filterAllowedB f = true) ∧
      validate_and_fix_plan (mkQuery (.str "Fall 2025")
        [.obj [("type", .str "weekday_in"), ("weekday", .str "Monday")]]
        [] defaultSelect [] .null) =
        some (.ok (mkQuery (.str "Fall 2025")
          [.obj [("type", .str "weekday_in"), ("weekday", .str "Monday")]]
          [] defaultSelect [] .null))) :=
  ⟨rfl, C1_disallowed_filters_absent_and_idempotent
    [("intent", .str "query"), ("term", .str "Fall 2025"),
     ("filters", .arr [.obj [("type", .str "bogus")],
                       .obj [("type", .str "weekday_in"), ("weekday", .str "Monday")]])]
    (mkQuery (.str "Fall 2025")
      [.obj [("type", .str "weekday_in"), ("weekday", .str "Monday")]]
      [] defaultSelect [] .null) rfl rfl⟩

/-- C2: for every raw plan with intent present and not equal to
`ask_clarification`, and `term` absent or the empty string, the validator
returns exactly the clarification plan `{intent: ask_clarification,
missing: ["term"]}`, whatever filters, group-by, select, order-by or limit
the plan carries. -/
theorem C2_missing_term_coerces_to_clarification (p : Obj)
    (hk : hasKey p "intent" = true)
    (hne : optIsStr (dGet p "intent") "ask_clarification" = false)
    (hterm : dGet p "term" = none ∨ dGet p "term" = some (.str "")) :
    validate_and_fix_plan p = some (.ok clarifyTerm) := by
  have hfalsy : truthy ((dGet p "term").getD .null) = false := by
    rcases hterm with h | h <;> rw [h] <;> rfl
  simp only [validate_and_fix_plan, hk, hne, Bool.not_true, Bool.false_eq_true,
    if_false, hfalsy, if_true]
  rfl

theorem C2_missing_term_coerces_to_clarification_witness :
    (hasKey [("intent", .str "query"),
      ("filters", .arr [.obj [("type", .str "weekday_in"), ("weekday", .str "Friday")],
                        .obj [("type", .str "same_day_pairs")]]),
      ("group_by", .arr [.str "iso_week"]), ("limit", .int 5)] "intent" = true) ∧
    validate_and_fix_plan [("intent", .str "query"),
      ("filters", .arr [.obj [("type", .str "weekday_in"), ("weekday", .str "Friday")],
                        .obj [("type", .str "same_day_pairs")]]),
      ("group_by", .arr [.str "iso_week"]), ("limit", .int 5)] =
      some (.ok clarifyTerm) :=
  ⟨rfl, C2_missing_term_coerces_to_clarification _ rfl rfl (Or.inl rfl)⟩

/-- C3 (code-bug exhibit): missing `intent` does fail with the planner error,
but it is not the only failing input shape — on a raw plan with
`filters: null` the validator raises an uncaught `TypeError` iterating
`None` (ask.py line 180, `plan.get("filters", [])` lacks the `or []` guard
used for `group_by`/`order_by`), modelled here as `none`. -/
theorem C3_validation_failure_shapes :
    validate_and_fix_plan [("term", .str "Fall 2025")] =
      some (.err "Planner did not return an intent.") ∧
    validate_and_fix_plan [("intent", .str "query"), ("term", .str "Fall 2025"),
      ("filters", .null)] = none :=
  ⟨rfl, rfl⟩

/-- A filter dict carrying a string `type` together with the payload fields
that kind requires for compilation (the compiler subscripts them). -/
def wfFilter (f : J) : Bool :=
  match f with
  | .obj kvs =>
    match dGet kvs "type" with
    | some (.str t) =>
      (if t = "after_anchor" || t = "before_anchor" || t = "anchor_exact"
        then (dGet kvs "anchor_event").isSome else true) &&
      (if t = "weekday_in" then (dGet kvs "weekday").isSome else true) &&
      (if t = "month_eq" then
          (match dGet kvs "year" with | some y => (pyFormatInt y).isSome | none => false) &&
          (match dGet kvs "month" with | some m => (pyFormatInt m).isSome | none => false)
        else true) &&
      (if t = "date_window" then
          (dGet kvs "start").isSome && (dGet kvs "end").isSome else true)
    | _ => false
  | _ => false

/-- The anchor-kind test applied through `f["type"]`. -/
def anchorTyB (f : J) : Bool :=
  match objIndex f "type" with | some t => isAnchorTy t | none => false

/-- The `f["type"] == s` test. -/
def typeEqB (s : String) (f : J) : Bool :=
  match objIndex f "type" with | some t => jIsStr t s | none => false

theorem wfFilter_shape (f : J) (h : wfFilter f = true) :
    ∃ kvs t, f = .obj kvs ∧ dGet kvs "type" = some (.str t) := by
  cases f with
  | obj kvs =>
    cases hty : dGet kvs "type" with
    | none => simp [wfFilter, hty] at h
    | some v =>
      cases v with
      | str t => exact ⟨kvs, t, rfl, hty⟩
      | null => simp [wfFilter, hty] at h
      | bool b => simp [wfFilter, hty] at h
      | int n => simp [wfFilter, hty] at h
      | arr xs => simp [wfFilter, hty] at h
      | obj o => simp [wfFilter, hty] at h
  | null => simp [wfFilter] at h
  | bool b => simp [wfFilter] at h
  | int n => simp [wfFilter] at h
  | str s => simp [wfFilter] at h
  | arr xs => simp [wfFilter] at h

theorem anyAnchorType_wf (fs : List J) (h : ∀ f ∈ fs, wfFilter f = true) :
    anyAnchorType fs = some (fs.any anchorTyB) := by
  induction fs with
  | nil => rfl
  | cons f rest ih =>
    obtain ⟨kvs, t, hf, hty⟩ := wfFilter_shape f (h f (by simp))
    subst hf
    have hobj : objIndex (J.obj kvs) "type" = some (.str t) := hty
    simp only [anyAnchorType, Option.bind_eq_bind, hobj, Option.some_bind,
      List.any_cons, anchorTyB]
    by_cases hA : isAnchorTy (.str t)
    · simp [hA]
    · simp only [hA, if_neg, Bool.false_or]
      rw [ih (fun g hg => h g (by simp [hg]))]
      simp [hA]

theorem anyTypeEq_wf (s : String) (fs : List J) (h : ∀ f ∈ fs, wfFilter f = true) :
    anyTypeEq s fs = some (fs.any (typeEqB s)) := by
  induction fs with
  | nil => rfl
  | cons f rest ih =>
    obtain ⟨kvs, t, hf, hty⟩ := wfFilter_shape f (h f (by simp))
    subst hf
    have hobj : objIndex (J.obj kvs) "type" = some (.str t) := hty
    simp only [anyTypeEq, Option.bind_eq_bind, hobj, Option.some_bind,
      List.any_cons, typeEqB]
    by_cases hA : jIsStr (.str t) s
    · simp [hA]
    · simp only [hA, if_neg, Bool.false_or]
      rw [ih (fun g hg => h g (by simp [hg]))]
      simp [hA]

theorem firstAnchor_mem (fs : List J) (f0 : J) (h : firstAnchor fs = some f0) :
    f0 ∈ fs ∧ anchorTyB f0 = true := by
  induction fs with
  | nil => simp [firstAnchor] at h
  | cons f rest ih =>
    simp only [firstAnchor, Option.bind_eq_bind] at h
    cases hobj : objIndex f "type" with
    | none => rw [hobj] at h; simp at h
    | some t =>
      rw [hobj] at h
      simp only [Option.some_bind] at h
      by_cases hA : isAnchorTy t
      · rw [if_pos hA] at h
        simp only [Option.pure_def, Option.some.injEq] at h
        subst h
        exact ⟨by simp, by simp [anchorTyB, hobj, hA]⟩
      · rw [if_neg hA] at h
        obtain ⟨hm, ha⟩ := ih h
        exact ⟨by simp [hm], ha⟩

theorem firstAnchor_decomp (fs1 : List J) (f0 : J) (fs2 : List J)
    (h1 : ∀ f ∈ fs1, wfFilter f = true)
    (hna : ∀ f ∈ fs1, anchorTyB f = false)
    (hf0 : anchorTyB f0 = true) :
    firstAnchor (fs1 ++ f0 :: fs2) = some f0 := by
  induction fs1 with
  | nil =>
    simp only [List.nil_append, firstAnchor, Option.bind_eq_bind]
    cases hobj : objIndex f0 "type" with
    | none => simp [anchorTyB, hobj] at hf0
    | some t =>
      simp only [Option.some_bind]
      have : isAnchorTy t = true := by
        simpa [anchorTyB, hobj] using hf0
      rw [if_pos this]
      rfl
  | cons f rest ih =>
    obtain ⟨kvs, t, hf, hty⟩ := wfFilter_shape f (h1 f (by simp))
    subst hf
    have hobj : objIndex (J.obj kvs) "type" = some (.str t) := hty
    have hfa : isAnchorTy (.str t) = false := by
      simpa [anchorTyB, hobj] using hna (J.obj kvs) (by simp)
    simp only [List.cons_append, firstAnchor, Option.bind_eq_bind, hobj,
      Option.some_bind, hfa, Bool.false_eq_true, if_false]
    exact ih (fun g hg => h1 g (by simp [hg])) (fun g hg => hna g (by simp [hg]))

theorem anchorClauses_wf (fs : List J) (h : ∀ f ∈ fs, wfFilter f = true) :
    ∃ cls, anchorClauses fs = some cls ∧
      ∀ f ∈ fs,
        (typeEqB "after_anchor" f = true → "e.start_date > anchor_date" ∈ cls) ∧
        (typeEqB "before_anchor" f = true → "e.start_date < anchor_date" ∈ cls) ∧
        (typeEqB "anchor_exact" f = true → "e.name = $anchor" ∈ cls) := by
  induction fs with
  | nil => exact ⟨[], rfl, by simp⟩
  | cons f rest ih =>
    obtain ⟨cls, hcls, hmem⟩ := ih (fun g hg => h g (by simp [hg]))
    obtain ⟨kvs, t, hf, hty⟩ := wfFilter_shape f (h f (by simp))
    subst hf
    have hobj : objIndex (J.obj kvs) "type" = some (.str t) := hty
    by_cases h1 : jIsStr (.str t) "after_anchor"
    · refine ⟨"e.start_date > anchor_date" :: cls, ?_, ?_⟩
      · simp only [anchorClauses, Option.bind_eq_bind, hobj, Option.some_bind, hcls, h1, if_true]
        rfl
      · intro g hg
        rcases List.mem_cons.mp hg with hg1 | hg2
        · subst hg1
          refine ⟨fun _ => by simp, fun hb => ?_, fun hx => ?_⟩
          · simp only [typeEqB, hobj] at hb
            simp only [jIsStr, beq_iff_eq] at h1 hb
            rw [h1] at hb
            simp at hb
          · simp only [typeEqB, hobj] at hx
            simp only [jIsStr, beq_iff_eq] at h1 hx
            rw [h1] at hx
            simp at hx
        · obtain ⟨ha, hb, hx⟩ := hmem g hg2
          exact ⟨fun hh => by simp [ha hh], fun hh => by simp [hb hh], fun hh => by simp [hx hh]⟩
    · by_cases h2 : jIsStr (.str t) "before_anchor"
      · refine ⟨"e.start_date < anchor_date" :: cls, ?_, ?_⟩
        · simp only [anchorClauses, Option.bind_eq_bind, hobj, Option.some_bind, hcls,
            h1, Bool.false_eq_true, if_false, h2, if_true]
          rfl
        · intro g hg
          rcases List.mem_cons.mp hg with hg1 | hg2
          · subst hg1
            refine ⟨fun ha => ?_, fun _ => by simp, fun hx => ?_⟩
            · simp only [typeEqB, hobj] at ha
              simp only [jIsStr, beq_iff_eq] at h2 ha
              rw [h2] at ha
              simp at ha
            · simp only [typeEqB, hobj] at hx
              simp only [jIsStr, beq_iff_eq] at h2 hx
              rw [h2] at hx
              simp at hx
          · obtain ⟨ha, hb, hx⟩ := hmem g hg2
            exact ⟨fun hh => by simp [ha hh], fun hh => by simp [hb hh], fun hh => by simp [hx hh]⟩
      · by_cases h3 : jIsStr (.str t) "anchor_exact"
        · refine ⟨"e.name = $anchor" :: cls, ?_, ?_⟩
          · simp only [anchorClauses, Option.bind_eq_bind, hobj, Option.some_bind, hcls,
              h1, Bool.false_eq_true, if_false, h2, h3, if_true]
            rfl
          · intro g hg
            rcases List.mem_cons.mp hg with hg1 | hg2
            · subst hg1
              refine ⟨fun ha => ?_, fun hb => ?_, fun _ => by simp⟩
              · simp only [typeEqB, hobj] at ha
                simp only [jIsStr, beq_iff_eq] at h3 ha
                rw [h3] at ha
                simp at ha
              · simp only [typeEqB, hobj] at hb
                simp only [jIsStr, beq_iff_eq] at h3 hb
                rw [h3] at hb
                simp at hb
            · obtain ⟨ha, hb, hx⟩ := hmem g hg2
              exact ⟨fun hh => by simp [ha hh], fun hh => by simp [hb hh], fun hh => by simp [hx hh]⟩
        · refine ⟨cls, ?_, ?_⟩
          · simp only [anchorClauses, Option.bind_eq_bind, hobj, Option.some_bind, hcls,
              h1, Bool.false_eq_true, if_false, h2, h3]
            rfl
          · intro g hg
            rcases List.mem_cons.mp hg with hg1 | hg2
            · subst hg1
              refine ⟨fun ha => ?_, fun hb => ?_, fun hx => ?_⟩
              · have hcon : jIsStr (J.str t) "after_anchor" = true := by
                  simpa [typeEqB, hobj] using ha
                exact absurd hcon (by simp [h1])
              · have hcon : jIsStr (J.str t) "before_anchor" = true := by
                  simpa [typeEqB, hobj] using hb
                exact absurd hcon (by simp [h2])
              · have hcon : jIsStr (J.str t) "anchor_exact" = true := by
                  simpa [typeEqB, hobj] using hx
                exact absurd hcon (by simp [h3])
            · exact hmem g hg2

theorem scalarLoop_wf (fs : List J) (h : ∀ f ∈ fs, wfFilter f = true) :
    ∀ params cls, ∃ params2 extra,
      scalarLoop fs params cls = some (params2, cls ++ extra) ∧
      ∀ k, k ≠ "weekday" → k ≠ "start" → k ≠ "end" → k ≠ "win_start" → k ≠ "win_end" →
        dGet params2 k = dGet params k := by
  induction fs with
  | nil =>
    intro params cls
    exact ⟨params, [], by simp [scalarLoop], fun k _ _ _ _ _ => rfl⟩
  | cons f rest ih =>
    intro params cls
    have hwf := h f (by simp)
    obtain ⟨kvs, t, hf, hty⟩ := wfFilter_shape f hwf
    subst hf
    have hobj : objIndex (J.obj kvs) "type" = some (.str t) := hty
    have ihr := ih (fun g hg => h g (by simp [hg]))
    by_cases h1 : jIsStr (.str t) "weekday_in"
    · have ht1 : t = "weekday_in" := by simpa [jIsStr] using h1
      subst ht1
      simp [wfFilter, hty] at hwf
      obtain ⟨w, hw'⟩ := Option.isSome_iff_exists.mp hwf
      obtain ⟨p2, extra, hrec, hpres⟩ :=
        ihr (dSet params "weekday" w) (cls ++ ["e.start_weekday = $weekday"])
      refine ⟨p2, "e.start_weekday = $weekday" :: extra, ?_, ?_⟩
      · have hwobj : objIndex (J.obj kvs) "weekday" = some w := hw'
        simp only [scalarLoop, Option.bind_eq_bind, hobj, Option.some_bind, h1, if_true,
          hwobj]
        rw [hrec, List.append_assoc]
        rfl
      · intro k hk1 hk2 hk3 hk4 hk5
        rw [hpres k hk1 hk2 hk3 hk4 hk5, dGet_dSet_ne params "weekday" w k (Ne.symm hk1)]
    · by_cases h2 : jIsStr (.str t) "month_eq"
      · have ht2 : t = "month_eq" := by simpa [jIsStr] using h2
        subst ht2
        simp [wfFilter, hty] at hwf
        obtain ⟨hy, hm⟩ := hwf
        cases hyg : dGet kvs "year" with
        | none => rw [hyg] at hy; simp at hy
        | some yJ =>
          rw [hyg] at hy
          cases hmg : dGet kvs "month" with
          | none => rw [hmg] at hm; simp at hm
          | some mJ =>
            rw [hmg] at hm
            obtain ⟨y, hy'⟩ := Option.isSome_iff_exists.mp hy
            obtain ⟨m, hm'⟩ := Option.isSome_iff_exists.mp hm
            obtain ⟨p2, extra, hrec, hpres⟩ := ihr
              (if m = 12 then
                dSet (dSet params "start" (.str (dateFirst y m))) "end"
                  (.str (intPad 4 (y + 1) ++ "-01-01"))
              else
                dSet (dSet params "start" (.str (dateFirst y m))) "end"
                  (.str (dateFirst y (m + 1))))
              (cls ++ ["e.start_date >= date($start) AND e.start_date < date($end)"])
            refine ⟨p2,
              "e.start_date >= date($start) AND e.start_date < date($end)" :: extra, ?_, ?_⟩
            · have hyobj : objIndex (J.obj kvs) "year" = some yJ := hyg
              have hmobj : objIndex (J.obj kvs) "month" = some mJ := hmg
              simp only [scalarLoop, Option.bind_eq_bind, hobj, Option.some_bind, h1,
                Bool.false_eq_true, if_false, h2, if_true, hyobj, hmobj, hy', hm']
              rw [hrec, List.append_assoc]
              rfl
            · intro k hk1 hk2 hk3 hk4 hk5
              rw [hpres k hk1 hk2 hk3 hk4 hk5]
              by_cases hm12 : m = 12
              · rw [if_pos hm12, dGet_dSet_ne _ "end" _ k (Ne.symm hk3),
                  dGet_dSet_ne _ "start" _ k (Ne.symm hk2)]
              · rw [if_neg hm12, dGet_dSet_ne _ "end" _ k (Ne.symm hk3),
                  dGet_dSet_ne _ "start" _ k (Ne.symm hk2)]
      · by_cases h3 : jIsStr (.str t) "date_window"
        · have ht3 : t = "date_window" := by simpa [jIsStr] using h3
          subst ht3
          simp [wfFilter, hty] at hwf
          obtain ⟨hs, he⟩ := hwf
          obtain ⟨ws, hws⟩ := Option.isSome_iff_exists.mp hs
          obtain ⟨we, hwe⟩ := Option.isSome_iff_exists.mp he
          obtain ⟨p2, extra, hrec, hpres⟩ := ihr
            (dSet (dSet params "win_start" ws) "win_end" we)
            (cls ++ ["e.start_date >= date($win_start) AND e.start_date <= date($win_end)"])
          refine ⟨p2,
            "e.start_date >= date($win_start) AND e.start_date <= date($win_end)" :: extra,
            ?_, ?_⟩
          · have hsobj : objIndex (J.obj kvs) "start" = some ws := hws
            have heobj : objIndex (J.obj kvs) "end" = some we := hwe
            simp only [scalarLoop, Option.bind_eq_bind, hobj, Option.some_bind, h1,
              Bool.false_eq_true, if_false, h2, h3, if_true, hsobj, heobj]
            rw [hrec, List.append_assoc]
            rfl
          · intro k hk1 hk2 hk3 hk4 hk5
            rw [hpres k hk1 hk2 hk3 hk4 hk5,
              dGet_dSet_ne _ "win_end" _ k (Ne.symm hk5),
              dGet_dSet_ne _ "win_start" _ k (Ne.symm hk4)]
        · obtain ⟨p2, extra, hrec, hpres⟩ := ihr params cls
          refine ⟨p2, extra, ?_, hpres⟩
          simp only [scalarLoop, Option.bind_eq_bind, hobj, Option.some_bind, h1,
            Bool.false_eq_true, if_false, h2, h3]
          exact hrec

theorem firstAnchor_of_any (fs : List J) (h : ∀ f ∈ fs, wfFilter f = true)
    (ha : fs.any anchorTyB = true) :
    ∃ f0, firstAnchor fs = some f0 ∧ anchorTyB f0 = true ∧ f0 ∈ fs := by
  induction fs with
  | nil => simp at ha
  | cons f rest ih =>
    obtain ⟨kvs, t, hf, hty⟩ := wfFilter_shape f (h f (by simp))
    subst hf
    have hobj : objIndex (J.obj kvs) "type" = some (.str t) := hty
    by_cases hA : isAnchorTy (.str t)
    · refine ⟨J.obj kvs, ?_, by simp [anchorTyB, hobj, hA], by simp⟩
      simp only [firstAnchor, Option.bind_eq_bind, hobj, Option.some_bind, hA, if_true]
      rfl
    · have ha' : rest.any anchorTyB = true := by
        simp only [List.any_cons, anchorTyB, hobj, hA, Bool.false_or] at ha
        exact ha
      obtain ⟨f0, h1, h2, h3⟩ := ih (fun g hg => h g (by simp [hg])) ha'
      refine ⟨f0, ?_, h2, by simp [h3]⟩
      simp only [firstAnchor, Option.bind_eq_bind, hobj, Option.some_bind, hA,
        Bool.false_eq_true, if_false]
      exact h1

theorem wf_anchor_event (f0 : J) (hwf : wfFilter f0 = true) (ha : anchorTyB f0 = true) :
    ∃ a0, objIndex f0 "anchor_event" = some a0 := by
  obtain ⟨kvs, t, hf, hty⟩ := wfFilter_shape f0 hwf
  subst hf
  have hobj : objIndex (J.obj kvs) "type" = some (.str t) := hty
  have hA : isAnchorTy (.str t) = true := by
    simpa [anchorTyB, hobj] using ha
  have hcond : (t = "after_anchor" || t = "before_anchor" || t = "anchor_exact" : Bool) = true := by
    simp only [isAnchorTy, jIsStr] at hA
    simpa using hA
  have hae : (dGet kvs "anchor_event").isSome = true := by
    simp only [wfFilter, hty, Bool.and_eq_true] at hwf
    rcases hwf with ⟨⟨⟨h1, _⟩, _⟩, _⟩
    rw [if_pos (by simpa using hcond)] at h1
    exact h1
  obtain ⟨a0, ha0⟩ := Option.isSome_iff_exists.mp hae
  exact ⟨a0, ha0⟩

theorem stagePre_anchor (term : J) (fs : List J)
    (h : ∀ f ∈ fs, wfFilter f = true)
    (hA : fs.any anchorTyB = true)
    (f0 : J) (hf0 : firstAnchor fs = some f0)
    (a0 : J) (ha0 : objIndex f0 "anchor_event" = some a0) :
    ∃ cls extra params2, anchorClauses fs = some cls ∧
      stagePre term fs = some (anchorPrelude, params2, cls ++ extra) ∧
      dGet params2 "anchor" = some a0 := by
  obtain ⟨cls, hcls, _⟩ := anchorClauses_wf fs h
  obtain ⟨params2, extra, hsc, hpres⟩ :=
    scalarLoop_wf fs h (dSet [("term", term)] "anchor" a0) cls
  refine ⟨cls, extra, params2, hcls, ?_, ?_⟩
  · simp only [stagePre, Option.bind_eq_bind, anyAnchorType_wf fs h, Option.some_bind,
      hA, if_true, hf0, ha0, hcls, hsc]
    rfl
  · rw [hpres "anchor" (by decide) (by decide) (by decide) (by decide) (by decide)]
    exact dGet_dSet_self _ "anchor" a0

theorem stagePre_noanchor (term : J) (fs : List J)
    (h : ∀ f ∈ fs, wfFilter f = true)
    (hA : fs.any anchorTyB = false) :
    ∃ params2 extra, stagePre term fs = some (basePrelude, params2, extra) := by
  obtain ⟨params2, extra, hsc, _⟩ := scalarLoop_wf fs h [("term", term)] []
  refine ⟨params2, extra, ?_⟩
  simp only [stagePre, Option.bind_eq_bind, anyAnchorType_wf fs h, Option.some_bind,
    hA, Bool.false_eq_true, if_false, hsc]
  rfl

theorem stagePre_total (term : J) (fs : List J) (h : ∀ f ∈ fs, wfFilter f = true) :
    ∃ pre, stagePre term fs = some pre := by
  by_cases hA : fs.any anchorTyB = true
  · obtain ⟨f0, hf0, hf0a, hf0m⟩ := firstAnchor_of_any fs h hA
    obtain ⟨a0, ha0⟩ := wf_anchor_event f0 (h f0 hf0m) hf0a
    obtain ⟨cls, extra, params2, _, hpre, _⟩ := stagePre_anchor term fs h hA f0 hf0 a0 ha0
    exact ⟨_, hpre⟩
  · obtain ⟨params2, extra, hpre⟩ :=
      stagePre_noanchor term fs h (Bool.not_eq_true _ ▸ by simpa using hA)
    exact ⟨_, hpre⟩

/-- An order-by entry of the shape the compiler's ORDER BY loop accepts
without raising: a dict with a `field` key whose `dir`, when present, is a
string. -/
def wfOrderItemB (it : J) : Bool :=
  match it with
  | .obj kvs => (dGet kvs "field").isSome &&
      (match (dGet kvs "dir").getD (.str "asc") with | .str _ => true | _ => false)
  | _ => false

theorem orderLoop_wf (items : List J) (h : ∀ it ∈ items, wfOrderItemB it = true) :
    ∃ l, orderLoop items = some l := by
  induction items with
  | nil => exact ⟨[], rfl⟩
  | cons it rest ih =>
    obtain ⟨l, hl⟩ := ih (fun g hg => h g (by simp [hg]))
    have hit := h it (by simp)
    cases it with
    | obj kvs =>
      simp only [wfOrderItemB, Bool.and_eq_true] at hit
      obtain ⟨hfld, hdir⟩ := hit
      obtain ⟨fld, hfld'⟩ := Option.isSome_iff_exists.mp hfld
      cases hd : (dGet kvs "dir").getD (.str "asc") with
      | str s =>
        simp only [orderLoop, Option.bind_eq_bind, hfld', Option.some_bind, hd,
          Option.some_bind, hl]
        by_cases c1 : jIsStr fld "start_date"
        · exact ⟨_, by rw [if_pos c1]; rfl⟩
        · by_cases c2 : jIsStr fld "end_date"
          · exact ⟨_, by rw [if_neg (by simp [c1]), if_pos c2]; rfl⟩
          · by_cases c3 : jIsStr fld "name"
            · exact ⟨_, by rw [if_neg (by simp [c1]), if_neg (by simp [c2]), if_pos c3]; rfl⟩
            · exact ⟨_, by rw [if_neg (by simp [c1]), if_neg (by simp [c2]),
                if_neg (by simp [c3])]; rfl⟩
      | null => rw [hd] at hdir; simp at hdir
      | bool b => rw [hd] at hdir; simp at hdir
      | int n => rw [hd] at hdir; simp at hdir
      | arr xs => rw [hd] at hdir; simp at hdir
      | obj o => rw [hd] at hdir; simp at hdir
    | null => simp [wfOrderItemB] at hit
    | bool b => simp [wfOrderItemB] at hit
    | int n => simp [wfOrderItemB] at hit
    | str s => simp [wfOrderItemB] at hit
    | arr xs => simp [wfOrderItemB] at hit

theorem wfOrderItemB_pair (fld : J) (d : String) :
    wfOrderItemB (.obj [("field", fld), ("dir", .str d)]) = true := by
  simp [wfOrderItemB, dGet_pair_fst, dGet_pair_snd]

theorem stagePost_shape (pre ws : String) (ss gs items : List J) (params : Obj)
    (hit : ∀ it ∈ items, wfOrderItemB it = true) :
    ∃ retStr ordStr,
      stagePost pre ws (some (.arr ss)) (some (.arr gs)) (some (.arr items)) params =
        some (pre ++ ws ++ retStr ++ ordStr, params) := by
  have hsel : ∃ cs, pyIter (if truthy (.arr ss) = true then J.arr ss else defaultSelect) =
      some cs := by
    split
    · exact ⟨ss, rfl⟩
    · exact ⟨_, rfl⟩
  obtain ⟨cs, hcs⟩ := hsel
  have hgb : ∀ needle : String,
      ∃ b, pyContains needle (if truthy (.arr gs) = true then J.arr gs else J.arr []) =
        some b := by
    intro needle
    split
    · exact ⟨_, rfl⟩
    · exact ⟨_, rfl⟩
  obtain ⟨bw, hbw⟩ := hgb "iso_week"
  obtain ⟨byr, hbyr⟩ := hgb "iso_year"
  have hord : ∃ its, pyIter (if truthy (.arr items) = true then J.arr items
        else defaultOrder) = some its ∧ ∀ it ∈ its, wfOrderItemB it = true := by
    split
    · exact ⟨items, rfl, hit⟩
    · refine ⟨[.obj [("field", .str "start_date"), ("dir", .str "asc")]], rfl, ?_⟩
      intro it hit2
      simp only [List.mem_singleton] at hit2
      subst hit2
      exact wfOrderItemB_pair (.str "start_date") "asc"
  obtain ⟨its, hits, hitswf⟩ := hord
  obtain ⟨ol, hol⟩ := orderLoop_wf its hitswf
  have key : stagePost pre ws (some (.arr ss)) (some (.arr gs)) (some (.arr items)) params =
      some (pre ++ ws ++
        ("RETURN " ++ pyJoin ", "
          (if byr then
            (if bw then cs.foldl selStep [] ++ ["e.start_date.week AS iso_week"]
             else cs.foldl selStep []) ++ ["e.start_date.year AS iso_year"]
           else
            (if bw then cs.foldl selStep [] ++ ["e.start_date.week AS iso_week"]
             else cs.foldl selStep [])) ++ "\n") ++
        (if ol.isEmpty then "" else "ORDER BY " ++ pyJoin ", " ol ++ "\n"), params) := by
    simp only [stagePost, Option.getD_some, Option.bind_eq_bind, hcs, Option.some_bind,
      hbw, hbyr, hits, hol]
    rfl
  exact ⟨_, _, key⟩

/-- C4 (amended): for any plan whose `term` is present and whose `filters`
entry is a list of filters each carrying the payload its kind requires,
presence of `same_day_pairs` anywhere in the list makes the compiled output
exactly the fixed same-day pairwise self-join with parameter map `{term}`;
with no `same_day_pairs`, presence of `overlap_pairs` yields exactly the
fixed overlap pairwise self-join with parameter map `{term}`.  The plan is
otherwise arbitrary, so every other well-formed filter and any select,
group-by and order-by values have no effect on the compiled output. -/
theorem C4_pair_filters_short_circuit (plan : Obj) (t : J) (fs : List J)
    (hterm : dGet plan "term" = some t)
    (hfilters : dGet plan "filters" = some (.arr fs))
    (hwf : ∀ f ∈ fs, wfFilter f = true) :
    (fs.any (typeEqB "same_day_pairs") = true →
      cypher_from_plan plan = some (sameDayQ, [("term", t)])) ∧
    (fs.any (typeEqB "same_day_pairs") = false →
      fs.any (typeEqB "overlap_pairs") = true →
      cypher_from_plan plan = some (overlapQ, [("term", t)])) := by
  obtain ⟨pre, hpre⟩ := stagePre_total t fs hwf
  constructor
  · intro hsd
    simp only [cypher_from_plan, hterm, hfilters, cypherCore, Option.bind_eq_bind,
      Option.some_bind, pyIter, hpre, anyTypeEq_wf "same_day_pairs" fs hwf, hsd, if_true]
    rfl
  · intro hsd hov
    simp only [cypher_from_plan, hterm, hfilters, cypherCore, Option.bind_eq_bind,
      Option.some_bind, pyIter, hpre, anyTypeEq_wf "same_day_pairs" fs hwf, hsd,
      anyTypeEq_wf "overlap_pairs" fs hwf, hov, if_true, Bool.false_eq_true, if_false]
    rfl

theorem C4_pair_filters_short_circuit_witness :
    cypher_from_plan [("term", .str "Fall 2025"),
      ("filters", .arr [.obj [("type", .str "weekday_in"), ("weekday", .str "Monday")],
                        .obj [("type", .str "same_day_pairs")]]),
      ("select", .int 9), ("group_by", .str "junk"), ("limit", .int 3)] =
      some (sameDayQ, [("term", .str "Fall 2025")]) :=
  (C4_pair_filters_short_circuit
    [("term", .str "Fall 2025"),
     ("filters", .arr [.obj [("type", .str "weekday_in"), ("weekday", .str "Monday")],
                       .obj [("type", .str "same_day_pairs")]]),
     ("select", .int 9), ("group_by", .str "junk"), ("limit", .int 3)]
    (.str "Fall 2025")
    [.obj [("type", .str "weekday_in"), ("weekday", .str "Monday")],
     .obj [("type", .str "same_day_pairs")]]
    rfl rfl (by decide)).1 rfl

theorem C4_counterexample_wf_needed :
    validate_and_fix_plan [("intent", .str "query"), ("term", .str "Fall 2025"),
      ("filters", .arr [.obj [("type", .str "weekday_in")],
                        .obj [("type", .str "same_day_pairs")]])] =
      some (.ok (mkQuery (.str "Fall 2025")
        [.obj [("type", .str "weekday_in")], .obj [("type", .str "same_day_pairs")]]
        [] defaultSelect [] .null)) ∧
    cypher_from_plan (mkQuery (.str "Fall 2025")
      [.obj [("type", .str "weekday_in")], .obj [("type", .str "same_day_pairs")]]
      [] defaultSelect [] .null) = none ∧
    (none : Option (String × Obj)) ≠
      some (sameDayQ, [("term", .str "Fall 2025")]) :=
  ⟨rfl, rfl, by simp⟩

/-- C5 (amended): for every raw plan whose validation yields a normalized
Query plan in which every filter carries the payload fields its kind
requires and whose select value is a list, compilation returns a
(query text, parameter map) pair without raising. -/
theorem C5_compilation_total_on_wf_plans (p p' : Obj)
    (h : validate_and_fix_plan p = some (.ok p'))
    (hq : dGet p' "intent" = some (.str "query"))
    (hwf : ∀ fs, dGet p' "filters" = some (.arr fs) → ∀ f ∈ fs, wfFilter f = true)
    (hsel : ∃ ss, dGet p' "select" = some (.arr ss)) :
    ∃ qp, cypher_from_plan p' = some qp := by
  obtain ⟨term, fF, gb, sel, fO, lim, hp', hterm, hstab, hallow, hgb, hselT, hostab, hoshape⟩ :=
    validate_ok_query_inv p p' h hq
  subst hp'
  have hwfF := hwf fF (dGet_mkQuery_filters term fF gb sel fO lim)
  obtain ⟨ss, hss⟩ := hsel
  rw [dGet_mkQuery_select] at hss
  have hselArr : sel = .arr ss := by injection hss
  subst hselArr
  have hitems : ∀ it ∈ fO, wfOrderItemB it = true := by
    intro it hit
    obtain ⟨fld, d, hsh, _, _⟩ := hoshape it hit
    subst hsh
    exact wfOrderItemB_pair fld d
  obtain ⟨pre, hpre⟩ := stagePre_total term fF hwfF
  obtain ⟨preS, params2, cls⟩ := pre
  by_cases hsd : fF.any (typeEqB "same_day_pairs") = true
  · refine ⟨(sameDayQ, [("term", term)]), ?_⟩
    simp only [cypher_from_plan, dGet_mkQuery_term, dGet_mkQuery_filters,
      dGet_mkQuery_select, dGet_mkQuery_group, dGet_mkQuery_order, cypherCore,
      Option.bind_eq_bind, Option.some_bind, pyIter, hpre,
      anyTypeEq_wf "same_day_pairs" fF hwfF, hsd, if_true]
    rfl
  · have hsd' : fF.any (typeEqB "same_day_pairs") = false := by
      simpa using hsd
    by_cases hov : fF.any (typeEqB "overlap_pairs") = true
    · refine ⟨(overlapQ, [("term", term)]), ?_⟩
      simp only [cypher_from_plan, dGet_mkQuery_term, dGet_mkQuery_filters,
        dGet_mkQuery_select, dGet_mkQuery_group, dGet_mkQuery_order, cypherCore,
        Option.bind_eq_bind, Option.some_bind, pyIter, hpre,
        anyTypeEq_wf "same_day_pairs" fF hwfF, hsd', Bool.false_eq_true, if_false,
        anyTypeEq_wf "overlap_pairs" fF hwfF, hov, if_true]
      rfl
    · have hov' : fF.any (typeEqB "overlap_pairs") = false := by
        simpa using hov
      obtain ⟨retS, ordS, hpost⟩ := stagePost_shape preS
        (if cls.isEmpty then "" else "WHERE " ++ pyJoin " AND " cls ++ "\n")
        ss gb fO params2 hitems
      refine ⟨((preS ++ if cls.isEmpty then "" else "WHERE " ++ pyJoin " AND " cls ++ "\n")
        ++ retS ++ ordS, params2), ?_⟩
      simp only [cypher_from_plan, dGet_mkQuery_term, dGet_mkQuery_filters,
        dGet_mkQuery_select, dGet_mkQuery_group, dGet_mkQuery_order, cypherCore,
        Option.bind_eq_bind, Option.some_bind, pyIter, hpre,
        anyTypeEq_wf "same_day_pairs" fF hwfF, hsd', Bool.false_eq_true, if_false,
        anyTypeEq_wf "overlap_pairs" fF hwfF, hov']
      exact hpost

theorem C5_compilation_total_on_wf_plans_witness :
    ∃ qp, cypher_from_plan (mkQuery (.str "Fall 2025")
      [.obj [("type", .str "month_eq"), ("year", .int 2025), ("month", .int 5)]]
      [] defaultSelect [] .null) = some qp :=
  C5_compilation_total_on_wf_plans
    [("intent", .str "query"), ("term", .str "Fall 2025"),
     ("filters", .arr [.obj [("type", .str "month_eq"), ("year", .int 2025),
                             ("month", .int 5)]])]
    (mkQuery (.str "Fall 2025")
      [.obj [("type", .str "month_eq"), ("year", .int 2025), ("month", .int 5)]]
      [] defaultSelect [] .null)
    rfl rfl
    (by
      intro fs hfs
      have hfs' : J.arr [J.obj [("type", J.str "month_eq"), ("year", J.int 2025),
          ("month", J.int 5)]] = J.arr fs := by
        have := hfs
        rw [dGet_mkQuery_filters] at this
        injection this
      intro f hf
      have hfs2 : fs = [J.obj [("type", J.str "month_eq"), ("year", J.int 2025),
          ("month", J.int 5)]] := by
        injection hfs' with h1
        exact h1.symm
      subst hfs2
      simp only [List.mem_singleton] at hf
      subst hf
      decide)
    ⟨[.str "name", .str "start_date", .str "end_date", .str "source"], rfl⟩

theorem C5_counterexample :
    validate_and_fix_plan [("intent", .str "query"), ("term", .str "Fall 2025"),
      ("filters", .arr [.obj [("type", .str "after_anchor")]])] =
      some (.ok (mkQuery (.str "Fall 2025") [.obj [("type", .str "after_anchor")]]
        [] defaultSelect [] .null)) ∧
    cypher_from_plan (mkQuery (.str "Fall 2025") [.obj [("type", .str "after_anchor")]]
      [] defaultSelect [] .null) = none :=
  ⟨rfl, rfl⟩

theorem roll_append (p : String) : ((p ++ "-") ++ "01") ++ "-01" = p ++ "-01-01" := by
  rw [String.append_assoc, String.append_assoc]
  rfl

theorem dateFirst_roll (a : Int) : intPad 4 a ++ "-01-01" = dateFirst a 1 := by
  unfold dateFirst
  have h1 : intPad 2 (1 : Int) = "01" := rfl
  rw [h1, roll_append]

/-- C6: compiling a `month_eq(y, m)` filter with 1 ≤ m ≤ 12 produces the
half-open date window whose start parameter is the first day of month
(y, m) and whose end parameter is the first day of the calendar-successor
month: the month with ordinal 12·y + m + 1, so m = 12 rolls over to January
of year y+1. -/
theorem C6_month_eq_window (y m : Int) (hm1 : 1 ≤ m) (hm2 : m ≤ 12) (term : String) :
    ∃ q params, cypher_from_plan (mkQuery (.str term)
        [.obj [("type", .str "month_eq"), ("year", .int y), ("month", .int m)]]
        [] defaultSelect [] .null) = some (q, params) ∧
      dGet params "start" = some (.str (dateFirst y m)) ∧
      ∃ y2 m2, dGet params "end" = some (.str (dateFirst y2 m2)) ∧
        12 * y2 + m2 = 12 * y + m + 1 ∧ 1 ≤ m2 ∧ m2 ≤ 12 := by
  have hitems : ∀ it ∈ ([] : List J), wfOrderItemB it = true := by simp
  have hwf : ∀ f ∈ [J.obj [("type", .str "month_eq"), ("year", .int y), ("month", .int m)]],
      wfFilter f = true := by
    intro f hf
    simp only [List.mem_singleton] at hf
    subst hf
    simp [wfFilter, dGet, pyFormatInt]
  have hend : (if m = 12 then
      dSet (dSet [("term", J.str term)] "start" (.str (dateFirst y m))) "end"
        (.str (intPad 4 (y + 1) ++ "-01-01"))
    else
      dSet (dSet [("term", J.str term)] "start" (.str (dateFirst y m))) "end"
        (.str (dateFirst y (m + 1)))) =
      [("term", J.str term), ("start", J.str (dateFirst y m)),
       ("end", J.str (if m = 12 then intPad 4 (y + 1) ++ "-01-01"
                      else dateFirst y (m + 1)))] := by
    split <;> rfl
  have hpre : stagePre (J.str term)
      [.obj [("type", .str "month_eq"), ("year", .int y), ("month", .int m)]] =
      some (basePrelude,
        [("term", J.str term), ("start", J.str (dateFirst y m)),
         ("end", J.str (if m = 12 then intPad 4 (y + 1) ++ "-01-01"
                        else dateFirst y (m + 1)))],
        ["e.start_date >= date($start) AND e.start_date < date($end)"]) := by
    simp only [stagePre, Option.bind_eq_bind]
    rw [show anyAnchorType
        [J.obj [("type", .str "month_eq"), ("year", .int y), ("month", .int m)]] =
        some false from rfl]
    simp only [Option.some_bind, Bool.false_eq_true, if_false]
    rw [show scalarLoop
        [J.obj [("type", .str "month_eq"), ("year", .int y), ("month", .int m)]]
        [("term", J.str term)] [] =
        some ((if m = 12 then
          dSet (dSet [("term", J.str term)] "start" (.str (dateFirst y m))) "end"
            (.str (intPad 4 (y + 1) ++ "-01-01"))
        else
          dSet (dSet [("term", J.str term)] "start" (.str (dateFirst y m))) "end"
            (.str (dateFirst y (m + 1)))),
        ["e.start_date >= date($start) AND e.start_date < date($end)"]) from ?_]
    · rw [hend]
      rfl
    · simp only [scalarLoop, Option.bind_eq_bind]
      rw [show objIndex (J.obj [("type", .str "month_eq"), ("year", .int y),
          ("month", .int m)]) "type" = some (.str "month_eq") from rfl]
      simp only [Option.some_bind]
      rw [if_neg (by decide), if_pos (by decide)]
      rw [show objIndex (J.obj [("type", .str "month_eq"), ("year", .int y),
          ("month", .int m)]) "year" = some (.int y) from rfl,
        show objIndex (J.obj [("type", .str "month_eq"), ("year", .int y),
          ("month", .int m)]) "month" = some (.int m) from rfl]
      simp only [Option.some_bind, pyFormatInt]
      split
      · rfl
      · rfl
  obtain ⟨retS, ordS, hpost⟩ := stagePost_shape basePrelude
    (if (["e.start_date >= date($start) AND e.start_date < date($end)"] :
        List String).isEmpty then ""
     else "WHERE " ++ pyJoin " AND "
        ["e.start_date >= date($start) AND e.start_date < date($end)"] ++ "\n")
    [.str "name", .str "start_date", .str "end_date", .str "source"] [] []
    [("term", J.str term), ("start", J.str (dateFirst y m)),
     ("end", J.str (if m = 12 then intPad 4 (y + 1) ++ "-01-01"
                    else dateFirst y (m + 1)))] hitems
  refine ⟨(basePrelude ++
      if (["e.start_date >= date($start) AND e.start_date < date($end)"] :
          List String).isEmpty then ""
      else "WHERE " ++ pyJoin " AND "
        ["e.start_date >= date($start) AND e.start_date < date($end)"] ++ "\n") ++
      retS ++ ordS,
    [("term", J.str term), ("start", J.str (dateFirst y m)),
     ("end", J.str (if m = 12 then intPad 4 (y + 1) ++ "-01-01"
                    else dateFirst y (m + 1)))], ?_, ?_, ?_⟩
  · simp only [cypher_from_plan, dGet_mkQuery_term, dGet_mkQuery_filters,
      dGet_mkQuery_select, dGet_mkQuery_group, dGet_mkQuery_order, cypherCore,
      Option.bind_eq_bind, Option.some_bind, pyIter, hpre]
    rw [show anyTypeEq "same_day_pairs"
        [J.obj [("type", .str "month_eq"), ("year", .int y), ("month", .int m)]] =
        some false from rfl,
      show anyTypeEq "overlap_pairs"
        [J.obj [("type", .str "month_eq"), ("year", .int y), ("month", .int m)]] =
        some false from rfl]
    simp only [Option.some_bind, Bool.false_eq_true, if_false]
    exact hpost
  · simp [dGet]
  · by_cases hm12 : m = 12
    · refine ⟨y + 1, 1, ?_, by rw [hm12]; ring, by decide, by decide⟩
      rw [if_pos hm12]
      rw [dateFirst_roll]
      simp [dGet]
    · refine ⟨y, m + 1, ?_, by ring, by omega, by omega⟩
      rw [if_neg hm12]
      simp [dGet]

/-- C7: on a normalized-shaped Query plan whose filter list is
`fs1 ++ f0 :: fs2` with no anchor filter in `fs1`, an anchor filter `f0`,
and no pairwise filter anywhere, the compiler binds the `$anchor` parameter
to `f0`'s anchor_event — the FIRST anchor filter in list order — never
re-binding it for later anchor filters (`fs2` is arbitrary, so it may hold
anchor filters with different anchor events), while every anchor filter in
the whole list contributes exactly its directional WHERE clause, and those
clauses open the WHERE right after the two-stage anchor prelude. -/
theorem C7_first_anchor_binding (term : J) (fs1 : List J) (f0 : J) (fs2 : List J)
    (ss gb items : List J) (lim : J)
    (hwf : ∀ f ∈ fs1 ++ f0 :: fs2, wfFilter f = true)
    (hna : ∀ f ∈ fs1, anchorTyB f = false)
    (hf0 : anchorTyB f0 = true)
    (hnopair : ∀ f ∈ fs1 ++ f0 :: fs2,
      typeEqB "same_day_pairs" f = false ∧ typeEqB "overlap_pairs" f = false)
    (a0 : J) (ha0 : objIndex f0 "anchor_event" = some a0)
    (hitems : ∀ it ∈ items, wfOrderItemB it = true) :
    ∃ q params cls tail,
      cypher_from_plan (mkQuery term (fs1 ++ f0 :: fs2) gb (.arr ss) items lim) =
        some (q, params) ∧
      dGet params "anchor" = some a0 ∧
      anchorClauses (fs1 ++ f0 :: fs2) = some cls ∧
      (∀ f ∈ fs1 ++ f0 :: fs2,
        (typeEqB "after_anchor" f = true → "e.start_date > anchor_date" ∈ cls) ∧
        (typeEqB "before_anchor" f = true → "e.start_date < anchor_date" ∈ cls) ∧
        (typeEqB "anchor_exact" f = true → "e.name = $anchor" ∈ cls)) ∧
      q = anchorPrelude ++ ("WHERE " ++ (pyJoin " AND " cls ++ tail)) := by
  have hA : (fs1 ++ f0 :: fs2).any anchorTyB = true :=
    List.any_eq_true.mpr ⟨f0, by simp, hf0⟩
  have hfirst : firstAnchor (fs1 ++ f0 :: fs2) = some f0 :=
    firstAnchor_decomp fs1 f0 fs2 (fun f hf => hwf f (by simp [hf])) hna hf0
  obtain ⟨cls, extra, params2, hcls, hpre, hanchor⟩ :=
    stagePre_anchor term (fs1 ++ f0 :: fs2) hwf hA f0 hfirst a0 ha0
  obtain ⟨cls', hcls', hmem⟩ := anchorClauses_wf (fs1 ++ f0 :: fs2) hwf
  rw [hcls] at hcls'
  have hceq : cls' = cls := by injection hcls' with h1; exact h1.symm
  subst hceq
  have hclsne : cls' ≠ [] := by
    obtain ⟨kvs0, t0, hf0eq, hty0⟩ := wfFilter_shape f0 (hwf f0 (by simp))
    have hobj0 : objIndex f0 "type" = some (.str t0) := by rw [hf0eq]; exact hty0
    have hany : isAnchorTy (.str t0) = true := by
      simp only [anchorTyB, hobj0] at hf0
      exact hf0
    have hf0mem : f0 ∈ fs1 ++ f0 :: fs2 := by simp
    obtain ⟨hafter, hbefore, hexact⟩ := hmem f0 hf0mem
    simp only [isAnchorTy, Bool.or_eq_true] at hany
    rcases hany with (h1 | h2) | h3
    · exact List.ne_nil_of_mem (hafter (by simp [typeEqB, hobj0, h1]))
    · exact List.ne_nil_of_mem (hbefore (by simp [typeEqB, hobj0, h2]))
    · exact List.ne_nil_of_mem (hexact (by simp [typeEqB, hobj0, h3]))
  obtain ⟨r0, hr0⟩ := pyJoin_append_ex " AND " cls' extra hclsne
  have hsd : (fs1 ++ f0 :: fs2).any (typeEqB "same_day_pairs") = false :=
    List.any_eq_false.mpr (fun f hf => by simp [(hnopair f hf).1])
  have hov : (fs1 ++ f0 :: fs2).any (typeEqB "overlap_pairs") = false :=
    List.any_eq_false.mpr (fun f hf => by simp [(hnopair f hf).2])
  obtain ⟨retS, ordS, hpost⟩ := stagePost_shape anchorPrelude
    (if (cls' ++ extra).isEmpty then ""
     else "WHERE " ++ pyJoin " AND " (cls' ++ extra) ++ "\n")
    ss gb items params2 hitems
  have hne : (cls' ++ extra).isEmpty = false := by
    cases cls' with
    | nil => exact absurd rfl hclsne
    | cons c cs => simp [List.isEmpty]
  refine ⟨(anchorPrelude ++
      if (cls' ++ extra).isEmpty then ""
      else "WHERE " ++ pyJoin " AND " (cls' ++ extra) ++ "\n") ++ retS ++ ordS,
    params2, cls', r0 ++ ("\n" ++ (retS ++ ordS)), ?_, hanchor, hcls, hmem, ?_⟩
  · simp only [cypher_from_plan, dGet_mkQuery_term, dGet_mkQuery_filters,
      dGet_mkQuery_select, dGet_mkQuery_group, dGet_mkQuery_order, cypherCore,
      Option.bind_eq_bind, Option.some_bind, pyIter, hpre,
      anyTypeEq_wf "same_day_pairs" (fs1 ++ f0 :: fs2) hwf, hsd,
      anyTypeEq_wf "overlap_pairs" (fs1 ++ f0 :: fs2) hwf, hov,
      Bool.false_eq_true, if_false]
    exact hpost
  · simp only [hne, Bool.false_eq_true, if_false]
    rw [hr0]
    simp [String.append_assoc]

theorem C7_first_anchor_binding_witness :
    ∃ q params cls tail,
      cypher_from_plan (mkQuery (.str "Fall 2025")
        ([.obj [("type", .str "weekday_in"), ("weekday", .str "Monday")]] ++
          .obj [("type", .str "after_anchor"), ("anchor_event", .str "Classes End")] ::
          [.obj [("type", .str "before_anchor"), ("anchor_event", .str "Reading Day")]])
        [] (.arr [.str "name", .str "start_date", .str "end_date", .str "source"])
        [] .null) = some (q, params) ∧
      dGet params "anchor" = some (.str "Classes End") ∧
      anchorClauses
        ([.obj [("type", .str "weekday_in"), ("weekday", .str "Monday")]] ++
          .obj [("type", .str "after_anchor"), ("anchor_event", .str "Classes End")] ::
          [.obj [("type", .str "before_anchor"), ("anchor_event", .str "Reading Day")]]) =
        some cls ∧
      (∀ f ∈ [.obj [("type", .str "weekday_in"), ("weekday", .str "Monday")]] ++
          .obj [("type", .str "after_anchor"), ("anchor_event", .str "Classes End")] ::
          [.obj [("type", .str "before_anchor"), ("anchor_event", .str "Reading Day")]],
        (typeEqB "after_anchor" f = true → "e.start_date > anchor_date" ∈ cls) ∧
        (typeEqB "before_anchor" f = true → "e.start_date < anchor_date" ∈ cls) ∧
        (typeEqB "anchor_exact" f = true → "e.name = $anchor" ∈ cls)) ∧
      q = anchorPrelude ++ ("WHERE " ++ (pyJoin " AND " cls ++ tail)) :=
  C7_first_anchor_binding (.str "Fall 2025")
    [.obj [("type", .str "weekday_in"), ("weekday", .str "Monday")]]
    (.obj [("type", .str "after_anchor"), ("anchor_event", .str "Classes End")])
    [.obj [("type", .str "before_anchor"), ("anchor_event", .str "Reading Day")]]
    [.str "name", .str "start_date", .str "end_date", .str "source"] [] [] .null
    (by decide) (by decide) (by decide) (by decide)
    (.str "Classes End") rfl (by simp)

/-- ASCII whitespace test used by Python `str.strip()` (space, tab, newline,
carriage return, vertical tab, form feed). -/
def isSpaceCh (c : Char) : Bool :=
  c == ' ' || c == '\t' || c == '\n' || c == '\r' || c.toNat == 11 || c.toNat == 12

/-- Drop leading whitespace characters. -/
def dropLeading : List Char → List Char
  | [] => []
  | c :: cs => if isSpaceCh c then dropLeading cs else c :: cs

/-- Python `str.strip()`: the original string with leading and trailing
whitespace removed (the spec's "trimmed"). -/
def pyStrip (s : String) : String :=
  String.mk (((dropLeading s.data).reverse |> dropLeading).reverse)

/-- C8 (amended): the validator's anchor normalization is a case-insensitive
synonym lookup — two anchor_event strings with the same lower-casing that
hit a synonym key normalize to the identical canonical name — and when no
synonym key matches, the anchor_event is kept as the original string
unchanged (it is NOT trimmed). -/
theorem C8_anchor_normalization (kvs1 kvs2 : Obj) (s1 s2 : String)
    (h1 : dGet kvs1 "anchor_event" = some (.str s1)) (hs1 : s1 ≠ "")
    (h2 : dGet kvs2 "anchor_event" = some (.str s2)) (hs2 : s2 ≠ "")
    (hcase : pyLower s1 = pyLower s2) :
    (∀ c, synLookup synAnchors (pyLower s1) = some c →
      normAnchor kvs1 = some (dSet kvs1 "anchor_event" (.str c)) ∧
      normAnchor kvs2 = some (dSet kvs2 "anchor_event" (.str c))) ∧
    (synLookup synAnchors (pyLower s1) = none →
      normAnchor kvs1 = some (dSet kvs1 "anchor_event" (.str s1))) := by
  constructor
  · intro c hc
    constructor
    · simp only [normAnchor, h1]
      rw [if_pos (by simp [truthy, hs1])]
      rw [hc]
      rfl
    · simp only [normAnchor, h2]
      rw [if_pos (by simp [truthy, hs2])]
      rw [← hcase, hc]
      rfl
  · intro hc
    simp only [normAnchor, h1]
    rw [if_pos (by simp [truthy, hs1])]
    rw [hc]
    rfl

theorem C8_anchor_normalization_witness :
    ((∀ c, synLookup synAnchors (pyLower "Classes Start") = some c →
      normAnchor [("type", .str "after_anchor"), ("anchor_event", .str "Classes Start")] =
        some (dSet [("type", .str "after_anchor"), ("anchor_event", .str "Classes Start")]
          "anchor_event" (.str c)) ∧
      normAnchor [("type", .str "after_anchor"), ("anchor_event", .str "classes START")] =
        some (dSet [("type", .str "after_anchor"), ("anchor_event", .str "classes START")]
          "anchor_event" (.str c))) ∧
    (synLookup synAnchors (pyLower "Classes Start") = none →
      normAnchor [("type", .str "after_anchor"), ("anchor_event", .str "Classes Start")] =
        some (dSet [("type", .str "after_anchor"), ("anchor_event", .str "Classes Start")]
          "anchor_event" (.str "Classes Start")))) ∧
    synLookup synAnchors (pyLower "Classes Start") = some "Classes Begin" :=
  ⟨C8_anchor_normalization
    [("type", .str "after_anchor"), ("anchor_event", .str "Classes Start")]
    [("type", .str "after_anchor"), ("anchor_event", .str "classes START")]
    "Classes Start" "classes START" rfl (by decide) rfl (by decide) rfl, rfl⟩

theorem C8_counterexample_no_trim :
    validate_and_fix_plan [("intent", .str "query"), ("term", .str "Fall 2025"),
      ("filters", .arr [.obj [("type", .str "after_anchor"),
                              ("anchor_event", .str " classes start ")]])] =
      some (.ok (mkQuery (.str "Fall 2025")
        [.obj [("type", .str "after_anchor"), ("anchor_event", .str " classes start ")]]
        [] defaultSelect [] .null)) ∧
    synLookup synAnchors (pyLower " classes start ") = none ∧
    pyStrip " classes start " = "classes start" ∧
    (" classes start " : String) ≠ "classes start" :=
  ⟨rfl, rfl, rfl, by decide⟩

/-- C9: the deterministic intent classifier applies its checks in the fixed
precedence order — overlap, same-day, after-anchor, before-anchor, plain
classes-start, weekday, month — returning the first matching intent and
`all_events` when nothing matches: it coincides with the first-match
semantics of the ordered check list `intentChecks`. -/
theorem C9_intent_precedence (q : String) : classify_intent q = firstIntent q := by
  unfold classify_intent firstIntent intentChecks
  simp only [List.find?]
  cases h1 : (pyInStr "overlap" (pyLower q) || pyInStr "overlapping" (pyLower q)) <;>
    simp only [h1, cond_true, cond_false, if_true, if_false] <;>
  first
  | rfl
  | (cases h2 : (pyInStr "same day" (pyLower q) || pyInStr "same-day" (pyLower q)) <;>
      simp only [h2, cond_true, cond_false] <;>
    first
    | rfl
    | (cases h3 : (pyInStr "after" (pyLower q) && (detect_anchor q).isSome) <;>
        simp only [h3, cond_true, cond_false] <;>
      first
      | rfl
      | (cases h4 : (pyInStr "before" (pyLower q) && (detect_anchor q).isSome) <;>
          simp only [h4, cond_true, cond_false] <;>
        first
        | rfl
        | (cases h5 : (pyInStr "start" (pyLower q) && pyInStr "class" (pyLower q)) <;>
            simp only [h5, cond_true, cond_false] <;>
          first
          | rfl
          | (cases h6 : (extract_weekday q).isSome <;>
              simp only [h6, cond_true, cond_false] <;>
            first
            | rfl
            | (cases h7 : (extract_month q).isSome <;>
                simp only [h7, cond_true, cond_false] <;> rfl))))))

theorem dGet_append_single_ne (pre : Obj) (k0 : String) (v1 v2 : J) (k : String)
    (h : k ≠ k0) :
    dGet (pre ++ [(k0, v1)]) k = dGet (pre ++ [(k0, v2)]) k := by
  induction pre with
  | nil =>
    simp only [List.nil_append, dGet]
    rw [if_neg (fun hh => h hh.symm), if_neg (fun hh => h hh.symm)]
  | cons kv rest ih =>
    simp only [List.cons_append, dGet]
    split
    · rfl
    · exact ih

/-- C10: the compiled output never depends on the plan's `limit` field: any
two plans that agree on every key other than `limit` compile identically
(the compiler reads only `term`, `filters`, `select`, `group_by`,
`order_by`), so no limit clause derived from the plan can appear in the
emitted query text. -/
theorem C10_limit_independence (p1 p2 : Obj)
    (h : ∀ k, k ≠ "limit" → dGet p1 k = dGet p2 k) :
    cypher_from_plan p1 = cypher_from_plan p2 := by
  unfold cypher_from_plan
  rw [h "term" (by decide), h "filters" (by decide), h "select" (by decide),
    h "group_by" (by decide), h "order_by" (by decide)]

theorem C10_limit_independence_witness :
    cypher_from_plan (mkQuery (.str "Fall 2025")
      [.obj [("type", .str "weekday_in"), ("weekday", .str "Monday")]]
      [] defaultSelect [] (.int 5)) =
    cypher_from_plan (mkQuery (.str "Fall 2025")
      [.obj [("type", .str "weekday_in"), ("weekday", .str "Monday")]]
      [] defaultSelect [] .null) :=
  C10_limit_independence _ _
    (fun k hk => dGet_append_single_ne
      [("intent", .str "query"), ("term", .str "Fall 2025"),
       ("filters", .arr [.obj [("type", .str "weekday_in"), ("weekday", .str "Monday")]]),
       ("group_by", .arr []), ("select", defaultSelect), ("order_by", .arr [])]
      "limit" (.int 5) .null k hk)

theorem C6_month_eq_window_witness :
    (∃ q params, cypher_from_plan (mkQuery (.str "Fall 2025")
        [.obj [("type", .str "month_eq"), ("year", .int 2025), ("month", .int 12)]]
        [] defaultSelect [] .null) = some (q, params) ∧
      dGet params "start" = some (.str (dateFirst 2025 12)) ∧
      ∃ y2 m2, dGet params "end" = some (.str (dateFirst y2 m2)) ∧
        12 * y2 + m2 = 12 * 2025 + 12 + 1 ∧ 1 ≤ m2 ∧ m2 ≤ 12) ∧
    (∃ q params, cypher_from_plan (mkQuery (.str "Fall 2025")
        [.obj [("type", .str "month_eq"), ("year", .int 2025), ("month", .int 5)]]
        [] defaultSelect [] .null) = some (q, params) ∧
      dGet params "start" = some (.str (dateFirst 2025 5)) ∧
      ∃ y2 m2, dGet params "end" = some (.str (dateFirst y2 m2)) ∧
        12 * y2 + m2 = 12 * 2025 + 5 + 1 ∧ 1 ≤ m2 ∧ m2 ≤ 12) ∧
    dateFirst 2025 12 = "2025-12-01" ∧ dateFirst 2026 1 = "2026-01-01" ∧
    dateFirst 2025 5 = "2025-05-01" ∧ dateFirst 2025 6 = "2025-06-01" :=
  ⟨C6_month_eq_window 2025 12 (by decide) (by decide) "Fall 2025",
   C6_month_eq_window 2025 5 (by decide) (by decide) "Fall 2025",
   rfl, rfl, rfl, rfl⟩
